import Mathlib

/-!
Verification of the tensai spaced-repetition core against its source.

The development shallowly embeds the parts of the code the claims are about:

* the review-summary store's sync-conflict resolution callback
  (`ReviewStore.onSyncChange`),
* the overdueness scoring function (`getOverdueness`),
* the card/progress document store (`CardStore`: `putCard`, `_putNewCard`,
  `_updateCard`, `_updateProgress`, `getCard`, `deleteCard`) over an
  explicit association-list model of the underlying document database, and
* the review-session reducer (`review` / `updateNextCard`).

JavaScript numbers are modelled as `ℚ` (exact rationals) except where the
code calls `Math.exp`, which forces `ℝ`.  Timestamps (epoch milliseconds)
are modelled as `ℤ`.  JavaScript object identity is modelled as structural
equality; the one place where the distinction is observable — the in-place
mutation of a shared `progress` record by the reducer's shallow copy — is
modelled separately with an explicit reference store (`MutModel` below).
-/

namespace Tensai

/-! ## Review summary store (`ReviewStore`) -/

namespace Summary

/-- One entry of the persisted review history (`ReviewContent.history`).
Only its presence matters to the conflict callback, which looks at
`history.length` alone, but we keep the stored fields. -/
structure HistoryEntry where
  id : String
  failed : Bool
deriving DecidableEq, Repr

/-- The persisted review-summary document (`ReviewContent`). -/
structure ReviewContent where
  maxCards : ℕ
  maxNewCards : ℕ
  history : List HistoryEntry
  finished : Bool
  modified : ℤ
deriving DecidableEq, Repr

/-- The conflict-resolution callback registered through
`db.resolveConflicts` in `ReviewStore.onSyncChange`: given the two
diverged revisions `a` and `b` it returns the winner.

Translated line by line from the callback body:
if `b.finished` return `a`; if `a.finished` return `b`;
if `!b.history.length && !!a.history.length` return `a` (and symmetrically);
otherwise `a.modified >= b.modified ? a : b`. -/
def reviewConflictResolver (a b : ReviewContent) : ReviewContent :=
  if b.finished then a
  else if a.finished then b
  else if b.history.isEmpty ∧ ¬a.history.isEmpty then a
  else if a.history.isEmpty ∧ ¬b.history.isEmpty then b
  else if b.modified ≤ a.modified then a else b

/-- An unfinished review with empty history, touched at time 0. -/
def unfinishedEmptyReview : ReviewContent :=
  { maxCards := 10, maxNewCards := 5, history := [], finished := false,
    modified := 0 }

/-- A finished review with one history entry, touched later, at time 50. -/
def finishedReview : ReviewContent :=
  { maxCards := 10, maxNewCards := 5,
    history := [{ id := "card1", failed := false }], finished := true,
    modified := 50 }

end Summary

/-! ## Overdueness ranking (`getOverdueness`) -/

namespace Overdue

/-- Milliseconds per day (`MS_PER_DAY`). -/
def MS_PER_DAY : ℝ := 86400000

/-- The exponential calibration constant (`EXP_FACTOR`). -/
def EXP_FACTOR : ℝ := 0.00225

/-- The overdueness score of a progress record with due time `due` and
interval `level`, evaluated at review time `tNow` (`getOverdueness`).
`Math.exp` is modelled by `Real.exp`. -/
noncomputable def getOverdueness (due level tNow : ℝ) : ℝ :=
  let daysOverdue := (tNow - due) / MS_PER_DAY
  let linearComponent := daysOverdue / level
  let expComponent := Real.exp (EXP_FACTOR * daysOverdue) - 1
  linearComponent + expComponent

end Overdue

/-! ## Card/progress document store (`CardStore`) -/

namespace Store

/-- Document keys.  The source namespaces documents by the string prefixes
`card-` / `progress-` (`CARD_PREFIX`, `PROGRESS_PREFIX`); since prefixing
with distinct literals is injective, the key space is modelled as a tagged
sum. -/
inductive DbKey where
  | card (id : String)
  | progress (id : String)
deriving DecidableEq, Repr

/-- A stored card document (`CardContent`).  Optional fields are absent from
the stored document when omitted (`normalizeCardForDB` deletes them), which
is modelled with `Option`. -/
structure CardContent where
  front : String
  back : String
  keywords : Option (List String)
  tags : Option (List String)
  starred : Option Bool
  created : ℤ
  modified : ℤ
deriving DecidableEq, Repr

/-- A stored progress document (`ProgressContent`).  `due` is an epoch
timestamp in milliseconds, `0` meaning "not yet due / new". -/
structure ProgressContent where
  level : ℚ
  due : ℤ
deriving DecidableEq, Repr

/-- A document of the store. -/
inductive Doc where
  | card (content : CardContent)
  | progress (content : ProgressContent)
deriving DecidableEq, Repr

/-- The document database: an association list of the live (non-deleted)
documents, newest first.  The source talks to a replicating store with
revisions; in this sequential model a conflicting `put` of an existing key
is the only failure (HTTP 409), deletion removes the entry, and the
revision bookkeeping has no further observable effect. -/
abbrev Db := List (DbKey × Doc)

/-- Look up the live document stored under `key`. -/
def dbGet (db : Db) (key : DbKey) : Option Doc :=
  (db.find? fun kv => kv.1 == key).map (·.2)

/-- A `db.put` of a document without a revision: fails (with status 409,
modelled as `none`) when a live document already exists under the key. -/
def dbPutNew (db : Db) (key : DbKey) (doc : Doc) : Option Db :=
  if (dbGet db key).isSome then none else some ((key, doc) :: db)

/-- Overwrite the document stored under `key` (the successful write of a
`db.upsert`). -/
def dbReplace (db : Db) (key : DbKey) (doc : Doc) : Db :=
  db.map fun kv => if kv.1 = key then (key, doc) else kv

/-- Remove the document stored under `key` (a successful `db.remove`). -/
def dbDelete (db : Db) (key : DbKey) : Db :=
  db.filter fun kv => kv.1 != key

/-- Errors surfaced by the store operations.  `notFound` carries status 404
in the source (`{ status: 404, name: 'not_found', message: 'missing' }`),
`conflict` status 409.  `idStreamExhausted` is a modelling artifact: the
source retries id generation unboundedly, while the model consumes an
externally supplied stream of fresh ids (see `tryPutNewCard`). -/
inductive DbErr where
  | notFound
  | conflict
  | idStreamExhausted
deriving DecidableEq, Repr

/-- The client-side progress half of a merged card (`Progress`): `due` is a
`Date` or `null`. -/
structure Progress where
  level : ℚ
  due : Option ℤ
deriving DecidableEq, Repr

/-- The merged client-side card returned by the store (`Card`). -/
structure Card where
  id : String
  front : String
  back : String
  keywords : List String
  tags : List String
  starred : Bool
  created : ℤ
  modified : ℤ
  progress : Progress
deriving DecidableEq, Repr

/-- The `progress` part of a `Partial<Card>` supplied to `putCard`.  The
source reads the fields defensively (`typeof update.level === 'number'`,
`update.due instanceof Date`), so each is optional; a supplied `Date` is
modelled by its epoch-millisecond value. -/
structure ProgressUpdate where
  level : Option ℚ
  due : Option ℤ
deriving DecidableEq, Repr

/-- A `Partial<Card>` argument of `putCard`: every field optional. -/
structure PartialCard where
  id : Option String
  front : Option String
  back : Option String
  keywords : Option (List String)
  tags : Option (List String)
  starred : Option Bool
  created : Option ℤ
  modified : Option ℤ
  progress : Option ProgressUpdate
deriving DecidableEq, Repr

/-- JavaScript's `String.prototype.normalize()` (Unicode NFC), an external
builtin the store applies to all text fields.  It is modelled as the
identity; all that matters to the claims is that it is a fixed idempotent
map. -/
def jsNormalize (s : String) : String := s

/-- Parse a stored progress document for client consumption
(`parseProgress`): `due: progress.due ? new Date(progress.due) : null`. -/
def parseProgress (p : ProgressContent) : Progress :=
  { level := p.level, due := if p.due ≠ 0 then some p.due else none }

/-- Merge a card document and a progress document into a client card
(`mergeDocs` composed with `parseCard`): missing optional fields are
defaulted (`card.keywords || []`, `card.tags || []`, `!!card.starred`) and
the id prefix is stripped (here: the key's payload). -/
def mergeDocs (id : String) (c : CardContent) (p : ProgressContent) : Card :=
  { id := id
    front := c.front
    back := c.back
    keywords := c.keywords.getD []
    tags := c.tags.getD []
    starred := c.starred.getD false
    created := c.created
    modified := c.modified
    progress := parseProgress p }

/-- The card-content fields of a `Partial<Card>` after
`stripFields(card, ['id', 'progress'])`. -/
structure CardUpdate where
  front : Option String
  back : Option String
  keywords : Option (List String)
  tags : Option (List String)
  starred : Option Bool
  created : Option ℤ
  modified : Option ℤ
deriving DecidableEq, Repr

/-- `stripFields(card, ['id', 'progress'])` on a `Partial<Card>`. -/
def cardUpdateOf (input : PartialCard) : CardUpdate :=
  { front := input.front, back := input.back, keywords := input.keywords,
    tags := input.tags, starred := input.starred, created := input.created,
    modified := input.modified }

/-- `{ ...card.progress }`: the progress fields of a `Partial<Card>`
(an absent `progress` spreads to the empty update). -/
def progressUpdateOf (input : PartialCard) : ProgressUpdate :=
  input.progress.getD { level := none, due := none }

/-- Whether `Object.keys(update).length` is zero for a card update. -/
def CardUpdate.isEmpty (u : CardUpdate) : Bool :=
  u.front.isNone && u.back.isNone && u.keywords.isNone && u.tags.isNone &&
    u.starred.isNone && u.created.isNone && u.modified.isNone

/-- The object spread `{ ...doc, ...update }` of a stored card document with
a card update: supplied fields win. -/
def applyCardUpdate (doc : CardContent) (u : CardUpdate) : CardContent :=
  { front := u.front.getD doc.front
    back := u.back.getD doc.back
    keywords := if u.keywords.isSome then u.keywords else doc.keywords
    tags := if u.tags.isSome then u.tags else doc.tags
    starred := if u.starred.isSome then u.starred else doc.starred
    created := u.created.getD doc.created
    modified := u.modified.getD doc.modified }

/-- `normalizeCardForDB(cardContent, update)`: normalize the text fields,
drop `keywords`/`tags` when the update supplies them empty (an empty array
is truthy in JavaScript, so the source tests `update.keywords &&
!update.keywords.length`), normalize the remaining keyword/tag lists, and
drop `starred` when the update supplies a falsy value
(`typeof update.starred !== 'undefined' && !update.starred`). -/
def normalizeCardForDB (c : CardContent)
    (uKeywords uTags : Option (List String)) (uStarred : Option Bool) :
    CardContent :=
  let c1 : CardContent :=
    { c with front := jsNormalize c.front, back := jsNormalize c.back }
  let c2 := match uKeywords with
    | some [] => { c1 with keywords := none }
    | _ => c1
  let c3 := { c2 with keywords := c2.keywords.map (List.map jsNormalize) }
  let c4 := match uTags with
    | some [] => { c3 with tags := none }
    | _ => c3
  let c5 := { c4 with tags := c4.tags.map (List.map jsNormalize) }
  match uStarred with
  | some false => { c5 with starred := none }
  | _ => c5

/-- The card document `_putNewCard` assembles before writing: mandatory
fields filled in (`front: card.front || ''`), `created`/`modified` set to
now, then `normalizeCardForDB(cardContent, cardContent)`. -/
def newCardContent (input : PartialCard) (now : ℤ) : CardContent :=
  normalizeCardForDB
    { front := input.front.getD "", back := input.back.getD "",
      keywords := input.keywords, tags := input.tags,
      starred := input.starred, created := now, modified := now }
    input.keywords input.tags input.starred

/-- The progress document `_putNewCard` assembles: the supplied level (or
0) and the supplied `due` date's timestamp (or 0). -/
def newProgressContent (input : PartialCard) : ProgressContent :=
  { level := match input.progress with
      | some p => p.level.getD 0
      | none => 0
    due := match input.progress with
      | some p => p.due.getD 0
      | none => 0 }

/-- The retry loop inside `_putNewCard` (`tryPutNewCard`): put the card
document under a fresh id, retrying with the next fresh id on a 409
conflict; then put the paired progress document (`progressToPut` spreads
the already-complete progress over `{ due: 0, level: 0 }`, so it equals
`progress`), and on a failure of that second put delete the just-written
card document and propagate the error.

The id generator `generateUniqueTimestampId` lives in `store/utils`, which
is not among the sources; per the spec (document-store primitives: "ID
generation (monotonic, collision-resistant, timestamp-derived)") fresh ids
are modelled as an externally supplied stream, one consumed per attempt,
and an exhausted stream returns the artificial `idStreamExhausted`. -/
def tryPutNewCard (card : CardContent) (progress : ProgressContent)
    (db : Db) (ids : List String) : Except DbErr Card × Db :=
  match ids with
  | [] => (.error .idStreamExhausted, db)
  | id :: rest =>
    match dbPutNew db (.card id) (.card card) with
    | none => tryPutNewCard card progress db rest
    | some db1 =>
      match dbPutNew db1 (.progress id) (.progress progress) with
      | none => (.error .conflict, dbDelete db1 (.card id))
      | some db2 => (.ok (mergeDocs id card progress), db2)

/-- `CardStore._putNewCard`. -/
def putNewCard (db : Db) (input : PartialCard) (now : ℤ)
    (ids : List String) : Except DbErr Card × Db :=
  tryPutNewCard (newCardContent input now) (newProgressContent input) db ids

/-- `CardStore._updateCard`: an upsert of the card document that reports
404 when the document is missing or deleted, merges the update over the
stored document, skips the write (returning the merged document) when the
update has no fields, and otherwise normalizes, bumps `modified` to now and
writes. -/
def updateCard (db : Db) (id : String) (u : CardUpdate) (now : ℤ) :
    Except DbErr CardContent × Db :=
  match dbGet db (.card id) with
  | some (.card doc) =>
    let card := applyCardUpdate doc u
    if u.isEmpty then (.ok card, db)
    else
      let card := normalizeCardForDB card u.keywords u.tags u.starred
      let card := { card with modified := now }
      (.ok card, dbReplace db (.card id) (.card card))
  | _ => (.error .notFound, db)

/-- `CardStore._updateProgress`: an upsert of the progress document that
reports 404 when the document is missing or deleted, overwrites `due` when
a date was supplied and differs, overwrites `level` when a number was
supplied and differs, and skips the write when nothing changed. -/
def updateProgress (db : Db) (id : String) (u : ProgressUpdate) :
    Except DbErr ProgressContent × Db :=
  match dbGet db (.progress id) with
  | some (.progress doc) =>
    let step1 : ProgressContent × Bool := match u.due with
      | some d => if doc.due ≠ d then ({ doc with due := d }, true)
        else (doc, false)
      | none => (doc, false)
    let step2 : ProgressContent × Bool := match u.level with
      | some l => if step1.1.level ≠ l then ({ step1.1 with level := l }, true)
        else (step1.1, false)
      | none => (step1.1, false)
    if step1.2 || step2.2 then
      (.ok step2.1, dbReplace db (.progress id) (.progress step2.1))
    else (.ok step2.1, db)
  | _ => (.error .notFound, db)

/-- `CardStore.putCard`: without an id, create the paired documents with a
fresh id (`_putNewCard`); with an id, update the card document and then the
progress document independently and return the merge. -/
def putCard (db : Db) (input : PartialCard) (now : ℤ)
    (ids : List String) : Except DbErr Card × Db :=
  match input.id with
  | none => putNewCard db input now ids
  | some id =>
    match updateCard db id (cardUpdateOf input) now with
    | (.error e, db1) => (.error e, db1)
    | (.ok cardDoc, db1) =>
      match updateProgress db1 id (progressUpdateOf input) with
      | (.error e, db2) => (.error e, db2)
      | (.ok progressDoc, db2) => (.ok (mergeDocs id cardDoc progressDoc), db2)

/-- `CardStore.getCard`: fetch both documents and merge them; a missing
half is a 404. -/
def getCard (db : Db) (id : String) : Except DbErr Card :=
  match dbGet db (.card id), dbGet db (.progress id) with
  | some (.card c), some (.progress p) => .ok (mergeDocs id c p)
  | _, _ => .error .notFound

/-- Modelled from the spec: `stubbornDelete` lives in `store/utils`, which
is not among the sources.  The spec describes it as the document-store
primitive "stubborn delete (retry-on-conflict removal)" and requires that
"deleting a nonexistent id succeeds silently"; in this sequential model
(no concurrent revision changes to retry against) that is removal of the
key, total and always succeeding. -/
def stubbornDelete (key : DbKey) (db : Db) : Db :=
  dbDelete db key

/-- `CardStore.deleteCard`: stubborn-delete the card document, then the
progress document. -/
def deleteCard (id : String) (db : Db) : Db :=
  stubbornDelete (.progress id) (stubbornDelete (.card id) db)

/-- A concrete `putCard` input with no id (used by witnesses). -/
def sampleNewInput : PartialCard :=
  { id := none, front := some "f", back := none, keywords := none,
    tags := none, starred := none, created := none, modified := none,
    progress := none }

/-- A concrete database whose only document is a progress record occupying
the id "a" (used by witnesses). -/
def dbWithProgressA : Db :=
  [(DbKey.progress "a", Doc.progress { level := 1, due := 5 })]

/-- A concrete database whose only document is a card occupying the id "a"
(used by witnesses). -/
def dbWithCardA : Db :=
  [(DbKey.card "a",
    Doc.card
      { front := "x", back := "y", keywords := none, tags := none,
        starred := none, created := 0, modified := 0 })]

end Store

/-! ## Review session reducer (`review` / `updateNextCard`) -/

namespace Review

/-- The review phases (`ReviewPhase`): `IDLE`, `LOADING`, `QUESTION`,
`ANSWER`, `COMPLETE`. -/
inductive ReviewPhase where
  | idle
  | loading
  | question
  | answer
  | complete
deriving DecidableEq, Repr

/-- A card's progress as the reducer sees it: the spaced-repetition
interval in days and the time of the last review (`null` until first
answered). -/
structure CardProgress where
  level : ℚ
  reviewed : Option ℤ
deriving DecidableEq, Repr

/-- A card as the reducer sees it.  The reducer reads only `_id` and
`progress`, so the content fields are omitted.  JavaScript object identity
(`indexOf`, `===`) is modelled by structural equality, which coincides with
it whenever distinct card objects of a session state are structurally
distinct; the observable consequence of the shallow copy `{ ...card }`
sharing one `progress` object is modelled separately (`MutModel`). -/
structure Card where
  id : String
  progress : CardProgress
deriving DecidableEq, Repr

/-- Counts of cards available for review (`AvailableCards`). -/
structure AvailableCards where
  newCards : ℕ
  overdueCards : ℕ
deriving DecidableEq, Repr

/-- The reducer's state (`ReviewState`). -/
structure ReviewState where
  phase : ReviewPhase
  reviewTime : ℤ
  maxCards : ℕ
  maxNewCards : ℕ
  completed : ℕ
  newCardsInPlay : ℕ
  heap : List Card
  failedCardsLevel1 : List Card
  failedCardsLevel2 : List Card
  history : List Card
  currentCard : Option Card
  nextCard : Option Card
  availableCards : Option AvailableCards
  savingProgress : Bool
  loadingAvailableCards : Bool
deriving DecidableEq, Repr

/-- The initial reducer state (`initialState`).  The source initializes
`reviewTime` from the wall clock (`new Date()`); the clock reading is
supplied as `now`. -/
def initialStateAt (now : ℤ) : ReviewState :=
  { phase := .idle, reviewTime := now, maxCards := 0, maxNewCards := 0,
    completed := 0, newCardsInPlay := 0, heap := [],
    failedCardsLevel1 := [], failedCardsLevel2 := [], history := [],
    currentCard := none, nextCard := none, availableCards := none,
    savingProgress := false, loadingAvailableCards := false }

/-- The actions of the reducer (`ReviewAction`), with the payload fields
the reducer reads.  Random seeds are rationals standing for JavaScript
numbers drawn from [0, 1). -/
inductive ReviewAction where
  | newReview (maxCards maxNewCards : ℕ)
  | setReviewLimit (maxCards maxNewCards : ℕ)
  | setReviewTime (reviewTime : ℤ)
  | reviewLoaded (cards : List Card)
      (history failedCardsLevel1 failedCardsLevel2 : Option (List Card))
      (nextCardSeed currentCardSeed : ℚ) (initialReview : Bool)
  | passCard (nextCardSeed : ℚ)
  | showAnswer
  | failCard (nextCardSeed : ℚ)
  | finishUpdateProgress
  | queryAvailableCards
  | updateAvailableCards (availableCards : AvailableCards)
  | updateReviewCard (card : Card)
  | deleteReviewCard (id : String) (nextCardSeed : ℚ)
  | loadReview (maxCards maxNewCards completed newCardsCompleted : ℕ)
  | cancelReview
deriving DecidableEq, Repr

/-- The two modes of `updateNextCard` (the `Update` symbol pair). -/
inductive UpdateMode where
  | updateCurrentCard
  | replaceNextCard
deriving DecidableEq, Repr

/-- Milliseconds per day (`MS_PER_DAY`), as a rational for interval math. -/
def MS_PER_DAY : ℚ := 86400000

/-- The `getCardAtIndex` helper inside `updateNextCard`: index into the
priority concatenation failedCardsLevel2 ++ failedCardsLevel1 ++ heap
without materializing it.  An out-of-range index reads `undefined` from the
JavaScript array, modelled as `none`. -/
def getCardAtIndex (fq2 fq1 heap : List Card) (i : ℤ) : Option Card :=
  if i < (fq2.length : ℤ) then
    if 0 ≤ i then fq2[i.toNat]? else none
  else if i < ((fq2.length + fq1.length : ℕ) : ℤ) then
    fq1[(i - fq2.length).toNat]?
  else
    heap[(i - (fq2.length + fq1.length)).toNat]?

/-- The "Find next card" block of `updateNextCard`: pick index
`Math.floor(seed * cardsAvailable)` in the priority concatenation; if the
pick is the current card, shift to the next index — or the previous one
when already at the last index — and when the pool has exactly one card
return `null`.  The comparison `nextCard === currentCard` is object
identity of two card objects, hence false whenever either side is
null/undefined. -/
def findNextCard (fq2 fq1 heap : List Card) (currentCard : Option Card)
    (seed : ℚ) : Option Card :=
  let cardsAvailable := fq2.length + fq1.length + heap.length
  if cardsAvailable = 0 then none
  else
    let cardIndex : ℤ := ⌊seed * (cardsAvailable : ℚ)⌋
    let nextCard := getCardAtIndex fq2 fq1 heap cardIndex
    if nextCard ≠ none ∧ nextCard = currentCard then
      if cardsAvailable = 1 then none
      else
        getCardAtIndex fq2 fq1 heap
          (if cardIndex < (cardsAvailable : ℤ) - 1 then cardIndex + 1
           else cardIndex - 1)
    else nextCard

/-- The "Update current card" stage of `updateNextCard` in
`UpdateCurrentCard` mode: promote `state.nextCard` to current, drop it from
the heap if it was there, and count it as a new card in play when its
progress shows a never-reviewed level-0 card.  Returns the updated
(currentCard, heap, newCardsInPlay). -/
def updateCurrentStage (state : ReviewState) :
    Option Card × List Card × ℕ :=
  match state.nextCard with
  | some c =>
    if c ∈ state.heap then
      (some c, state.heap.erase c,
        if c.progress.level = 0 ∧ c.progress.reviewed = none then
          state.newCardsInPlay + 1
        else state.newCardsInPlay)
    else (some c, state.heap, state.newCardsInPlay)
  | none => (none, state.heap, state.newCardsInPlay)

/-- The tail of `updateNextCard`'s non-empty-pool branch, taking the
already-updated current card, heap and new-cards count together with the
freshly selected next card: promote the next card straight to current when
the current card went null while one was live before (the
just-failed-last-card path), and drop the finalized current card from the
history (`history.indexOf(currentCard)` / `splice`). -/
def assembleNext (state : ReviewState) (cur1 : Option Card)
    (heap1 : List Card) (ncip1 : ℕ) (next1 : Option Card) : ReviewState :=
  let promoted := cur1 = none ∧ state.currentCard ≠ none ∧ next1 ≠ none
  let cur2 := if promoted then next1 else cur1
  let next2 := if promoted then none else next1
  let history2 := match cur2 with
    | some c => state.history.erase c
    | none => state.history
  { state with
    newCardsInPlay := ncip1, heap := heap1, history := history2,
    currentCard := cur2, nextCard := next2 }

/-- `updateNextCard`: with an empty pool, complete the review (or just
clear `nextCard` when merely replacing it under a live current card);
otherwise update the current card (in `UpdateCurrentCard` mode), select a
new next card and assemble the result. -/
def updateNextCard (state : ReviewState) (seed : ℚ) (mode : UpdateMode) :
    ReviewState :=
  let cardsAvailable := state.failedCardsLevel2.length +
    state.failedCardsLevel1.length + state.heap.length
  if cardsAvailable = 0 then
    if mode = .updateCurrentCard ∨ state.currentCard = none then
      { state with
        phase := .complete, currentCard := none, nextCard := none }
    else
      { state with nextCard := none }
  else
    let stage := match mode with
      | .updateCurrentCard => updateCurrentStage state
      | .replaceNextCard =>
        (state.currentCard, state.heap, state.newCardsInPlay)
    assembleNext state stage.1 stage.2.1 stage.2.2
      (findNextCard state.failedCardsLevel2 state.failedCardsLevel1
        stage.2.1 stage.1 seed)

/-- The "Update the passed card" computation of `PASS_CARD` for a finished
card (one in neither failed queue, or dropped from queue one): with a
truthy level and a prior `reviewed` timestamp the new interval is
`Math.max(intervalInDays * 2, level, 0.5)` where `intervalInDays` is the
time since the last review in days; a new or reset card gets level 0.5;
either way `reviewed` becomes the session's review time. -/
def passFinishedCard (reviewTime : ℤ) (c : Card) : Card :=
  if c.progress.level ≠ 0 ∧ c.progress.reviewed ≠ none then
    let intervalInDays : ℚ :=
      ((reviewTime : ℚ) - ((c.progress.reviewed.getD 0 : ℤ) : ℚ)) /
        MS_PER_DAY
    { c with progress :=
      { level := max (intervalInDays * 2) (max c.progress.level (1 / 2)),
        reviewed := some reviewTime } }
  else
    { c with progress := { level := 1 / 2, reviewed := some reviewTime } }

/-- The `PASS_CARD` branch of the reducer, after the phase guard.  A card
found in failed queue two moves to queue one with its level forced to 0
(not finished); otherwise it is finished: it is dropped from queue one if
there, `completed` is bumped and its new interval computed.  The updated
card is appended to the history and becomes the (interim) current card,
then `updateNextCard` advances.  The source asserts the current card is
non-null here (`state.currentCard!`); the `none` case is unreachable and
modelled as a no-op. -/
def passCardReduce (state : ReviewState) (seed : ℚ) : ReviewState :=
  match state.currentCard with
  | none => state
  | some passedCard =>
    if passedCard ∈ state.failedCardsLevel2 then
      let updatedCard : Card :=
        { passedCard with progress :=
          { level := 0, reviewed := passedCard.progress.reviewed } }
      let intermediate := { state with
        phase := .question,
        failedCardsLevel2 := state.failedCardsLevel2.erase passedCard,
        failedCardsLevel1 := state.failedCardsLevel1 ++ [updatedCard],
        history := state.history ++ [updatedCard],
        currentCard := some updatedCard,
        savingProgress := true }
      updateNextCard intermediate seed .updateCurrentCard
    else
      let updatedCard := passFinishedCard state.reviewTime passedCard
      let fq1 := if passedCard ∈ state.failedCardsLevel1 then
          state.failedCardsLevel1.erase passedCard
        else state.failedCardsLevel1
      let intermediate := { state with
        phase := .question,
        completed := state.completed + 1,
        failedCardsLevel1 := fq1,
        history := state.history ++ [updatedCard],
        currentCard := some updatedCard,
        savingProgress := true }
      updateNextCard intermediate seed .updateCurrentCard

/-- The `FAIL_CARD` branch of the reducer, after the phase guard: remove
the failed card from whichever failed queue held it, append the updated
card (level forced to 0, `reviewed` set to the session's review time) to
failed queue two and to the history, make it the (interim) current card and
advance through `updateNextCard`.  As with `PASS_CARD`, the `none` current
card is unreachable and modelled as a no-op. -/
def failCardReduce (state : ReviewState) (seed : ℚ) : ReviewState :=
  match state.currentCard with
  | none => state
  | some failedCard =>
    let updatedCard : Card :=
      { failedCard with progress :=
        { level := 0, reviewed := some state.reviewTime } }
    let fq1 := if failedCard ∈ state.failedCardsLevel1 then
        state.failedCardsLevel1.erase failedCard
      else state.failedCardsLevel1
    let fq2base := if failedCard ∉ state.failedCardsLevel1 ∧
        failedCard ∈ state.failedCardsLevel2 then
        state.failedCardsLevel2.erase failedCard
      else state.failedCardsLevel2
    let intermediate := { state with
      phase := .question,
      failedCardsLevel1 := fq1,
      failedCardsLevel2 := fq2base ++ [updatedCard],
      history := state.history ++ [updatedCard],
      currentCard := some updatedCard,
      savingProgress := true }
    updateNextCard intermediate seed .updateCurrentCard

/-- The state the `REVIEW_LOADED` branch assembles before selecting cards:
the heap replaced by the loaded cards and the history/failed-queue
overrides (supplied only when resuming a synced session) applied. -/
def loadedState (state : ReviewState) (cards : List Card)
    (history failedCardsLevel1 failedCardsLevel2 : Option (List Card)) :
    ReviewState :=
  { state with
    heap := cards,
    history := history.getD state.history,
    failedCardsLevel1 := failedCardsLevel1.getD state.failedCardsLevel1,
    failedCardsLevel2 := failedCardsLevel2.getD state.failedCardsLevel2 }

/-- The `REVIEW_LOADED` branch: install the loaded cards, always replace
the next card, additionally fill in the current card when none exists yet,
return to `QUESTION` when a current card (re)appeared, and downgrade a
`COMPLETE` landed on by the very first load to `IDLE`. -/
def reviewLoadedReduce (state : ReviewState) (cards : List Card)
    (history failedCardsLevel1 failedCardsLevel2 : Option (List Card))
    (nextCardSeed currentCardSeed : ℚ) (initialReview : Bool) :
    ReviewState :=
  let u1 := updateNextCard
    (loadedState state cards history failedCardsLevel1 failedCardsLevel2)
    nextCardSeed .replaceNextCard
  let u2 := if u1.nextCard ≠ none ∧ u1.currentCard = none then
      updateNextCard u1 currentCardSeed .updateCurrentCard
    else u1
  let u3 := if (u2.phase = .complete ∨ u2.phase = .loading) ∧
      u2.currentCard ≠ none then
      { u2 with phase := .question }
    else u2
  if u3.phase = .complete ∧ initialReview then { u3 with phase := .idle }
  else u3

/-- The `UPDATE_REVIEW_CARD` branch: replace the card wherever a card with
the same id appears among currentCard/nextCard/heap/failed queues/history.
The source assembles an `update` object only from the fields where an id
matched and returns the input state object untouched when none did; the
resulting state is the same value either way. -/
def updateReviewCardReduce (state : ReviewState) (card : Card) :
    ReviewState :=
  let patch := fun (c : Card) => if c.id = card.id then card else c
  { state with
    currentCard := state.currentCard.map patch,
    nextCard := state.nextCard.map patch,
    heap := state.heap.map patch,
    failedCardsLevel1 := state.failedCardsLevel1.map patch,
    failedCardsLevel2 := state.failedCardsLevel2.map patch,
    history := state.history.map patch }

/-- The `DELETE_REVIEW_CARD` branch: splice the card with the given id out
of heap/failed queues/history (each holds it at most once); when the
deleted card was the next card, re-select it in `ReplaceNextCard` mode;
when it was the current card, null the current card and re-select in
`UpdateCurrentCard` mode. -/
def deleteReviewCardReduce (state : ReviewState) (id : String) (seed : ℚ) :
    ReviewState :=
  let s1 := { state with
    heap := state.heap.eraseP (fun c => c.id == id),
    failedCardsLevel1 := state.failedCardsLevel1.eraseP
      (fun c => c.id == id),
    failedCardsLevel2 := state.failedCardsLevel2.eraseP
      (fun c => c.id == id),
    history := state.history.eraseP (fun c => c.id == id) }
  if state.nextCard.any (fun n => n.id == id) then
    updateNextCard s1 seed .replaceNextCard
  else if state.currentCard.any (fun c => c.id == id) then
    updateNextCard { s1 with currentCard := none } seed .updateCurrentCard
  else s1

/-- The review reducer (`review`), one branch per action type. -/
def review (state : ReviewState) (action : ReviewAction) : ReviewState :=
  match action with
  | .newReview maxCards maxNewCards =>
    { initialStateAt 0 with
      phase := .loading, reviewTime := state.reviewTime,
      maxCards := maxCards, maxNewCards := maxNewCards,
      availableCards := none }
  | .setReviewLimit maxCards maxNewCards =>
    { state with
      phase := .loading, maxCards := maxCards,
      maxNewCards := maxNewCards }
  | .setReviewTime reviewTime => { state with reviewTime := reviewTime }
  | .reviewLoaded cards history failedCardsLevel1 failedCardsLevel2
      nextCardSeed currentCardSeed initialReview =>
    reviewLoadedReduce state cards history failedCardsLevel1
      failedCardsLevel2 nextCardSeed currentCardSeed initialReview
  | .passCard nextCardSeed =>
    if state.phase ≠ .answer ∧ state.phase ≠ .question then state
    else passCardReduce state nextCardSeed
  | .showAnswer =>
    if state.phase ≠ .question then state
    else { state with phase := .answer }
  | .failCard nextCardSeed =>
    if state.phase ≠ .answer ∧ state.phase ≠ .question then state
    else failCardReduce state nextCardSeed
  | .finishUpdateProgress =>
    if ¬state.savingProgress then state
    else { state with savingProgress := false }
  | .queryAvailableCards => { state with loadingAvailableCards := true }
  | .updateAvailableCards availableCards =>
    if state.phase ≠ .idle ∧ state.phase ≠ .complete then
      { state with availableCards := none, loadingAvailableCards := false }
    else
      { state with
        availableCards := some availableCards,
        loadingAvailableCards := false }
  | .updateReviewCard card => updateReviewCardReduce state card
  | .deleteReviewCard id nextCardSeed =>
    deleteReviewCardReduce state id nextCardSeed
  | .loadReview maxCards maxNewCards completed newCardsCompleted =>
    { state with
      phase := .loading, maxCards := maxCards,
      maxNewCards := maxNewCards, completed := completed,
      newCardsInPlay := newCardsCompleted, currentCard := none,
      nextCard := none }
  | .cancelReview =>
    if state.phase = .idle ∨ state.phase = .complete then state
    else
      { state with
        phase := .idle, maxCards := 0, maxNewCards := 0, completed := 0,
        newCardsInPlay := 0, heap := [], failedCardsLevel1 := [],
        failedCardsLevel2 := [], history := [], currentCard := none,
        nextCard := none }

/-- The card pool `updateNextCard` draws from, in priority order. -/
def poolOf (s : ReviewState) : List Card :=
  s.failedCardsLevel2 ++ s.failedCardsLevel1 ++ s.heap

/-- The ids of a card list are pairwise distinct. -/
def NodupIds (l : List Card) : Prop := (l.map Card.id).Nodup

/-- The consistency a `REVIEW_LOADED` payload must have with the session
for the history invariant to survive: distinct ids within the history and
within the pool; any pool card sharing a history card's id is that very
card; no heap card shares the current card's id, and a failed-queue card
sharing it is the current card itself. -/
def LoadPre (t : ReviewState) : Prop :=
  NodupIds t.history ∧
  (∀ c ∈ t.currentCard, ∀ h ∈ t.history, h.id ≠ c.id) ∧
  (∀ p ∈ poolOf t, ∀ h ∈ t.history, h.id = p.id → h = p) ∧
  NodupIds (poolOf t) ∧
  (∀ c ∈ t.currentCard, ∀ p ∈ t.heap, p.id ≠ c.id) ∧
  (∀ c ∈ t.currentCard,
    ∀ p ∈ t.failedCardsLevel2 ++ t.failedCardsLevel1, p.id = c.id → p = c)

/-- The inductive session invariant behind the history property: history
ids are distinct; no history card shares the current card's id; a history
card sharing the next card's id is the next card itself; a history card
sharing a pool card's id is that pool card; pool ids are distinct; no heap
card shares the current card's id; a failed-queue card sharing the current
card's id is the current card; the next card never shares the current
card's id; a pool card sharing the next card's id is the next card; and in
the question/answer phases a null next card means the pool is empty or
exactly the current card. -/
structure SessionInv (s : ReviewState) : Prop where
  histNodup : NodupIds s.history
  curHist : ∀ c ∈ s.currentCard, ∀ h ∈ s.history, h.id ≠ c.id
  nextHist : ∀ n ∈ s.nextCard, ∀ h ∈ s.history, h.id = n.id → h = n
  poolHist : ∀ p ∈ poolOf s, ∀ h ∈ s.history, h.id = p.id → h = p
  poolNodup : NodupIds (poolOf s)
  curHeap : ∀ c ∈ s.currentCard, ∀ p ∈ s.heap, p.id ≠ c.id
  curFq : ∀ c ∈ s.currentCard,
    ∀ p ∈ s.failedCardsLevel2 ++ s.failedCardsLevel1, p.id = c.id → p = c
  curNext : ∀ c ∈ s.currentCard, ∀ n ∈ s.nextCard, n.id ≠ c.id
  nextPool : ∀ n ∈ s.nextCard, ∀ p ∈ poolOf s, p.id = n.id → p = n
  nonePool : (s.phase = .question ∨ s.phase = .answer) →
    s.nextCard = none →
    poolOf s = [] ∨ ∃ c ∈ s.currentCard, poolOf s = [c]

/-- The invariant as re-established by `updateNextCard` itself: the same
clauses with the null-next-card clause holding unconditionally (the phases
merely inherit it). -/
structure SelInv (s : ReviewState) : Prop where
  histNodup : NodupIds s.history
  curHist : ∀ c ∈ s.currentCard, ∀ h ∈ s.history, h.id ≠ c.id
  nextHist : ∀ n ∈ s.nextCard, ∀ h ∈ s.history, h.id = n.id → h = n
  poolHist : ∀ p ∈ poolOf s, ∀ h ∈ s.history, h.id = p.id → h = p
  poolNodup : NodupIds (poolOf s)
  curHeap : ∀ c ∈ s.currentCard, ∀ p ∈ s.heap, p.id ≠ c.id
  curFq : ∀ c ∈ s.currentCard,
    ∀ p ∈ s.failedCardsLevel2 ++ s.failedCardsLevel1, p.id = c.id → p = c
  curNext : ∀ c ∈ s.currentCard, ∀ n ∈ s.nextCard, n.id ≠ c.id
  nextPool : ∀ n ∈ s.nextCard, ∀ p ∈ poolOf s, p.id = n.id → p = n
  nonePool : s.nextCard = none →
    poolOf s = [] ∨ ∃ c ∈ s.currentCard, poolOf s = [c]

/-- Which actions the side-effect layer can legitimately dispatch: random
seeds lie in [0, 1) (the documented domain of the external seed), and a
`REVIEW_LOADED` payload is consistent with the session it lands in. -/
def WFAction (s : ReviewState) (a : ReviewAction) : Prop :=
  match a with
  | .passCard seed => 0 ≤ seed ∧ seed < 1
  | .failCard seed => 0 ≤ seed ∧ seed < 1
  | .deleteReviewCard _ seed => 0 ≤ seed ∧ seed < 1
  | .reviewLoaded cards history failedCardsLevel1 failedCardsLevel2
      nextCardSeed currentCardSeed _ =>
    (0 ≤ nextCardSeed ∧ nextCardSeed < 1) ∧
    (0 ≤ currentCardSeed ∧ currentCardSeed < 1) ∧
    LoadPre (loadedState s cards history failedCardsLevel1
      failedCardsLevel2)
  | _ => True

/-- The states reachable from the initial state by dispatching well-formed
actions through the reducer. -/
inductive Reachable : ReviewState → Prop where
  | init (now : ℤ) : Reachable (initialStateAt now)
  | step {s : ReviewState} {a : ReviewAction} : Reachable s →
      WFAction s a → Reachable (review s a)

/-- A concrete never-reviewed card (used by witnesses). -/
def cardA : Card := { id := "a", progress := { level := 1, reviewed := none } }

/-- A second concrete card (used by witnesses). -/
def cardB : Card := { id := "b", progress := { level := 1, reviewed := none } }

/-- A card structurally equal to `cardA` except for its progress, sharing
its id (used by the counterexample payloads). -/
def cardA2 : Card := { id := "a", progress := { level := 2, reviewed := none } }

end Review

/-! ## Reference semantics of the reducer's shallow copy (`MutModel`) -/

namespace MutModel

/-- A card as a JavaScript object: its id together with the reference to
its `progress` object, here an index into an explicit store of progress
records.  `const updatedCard = { ...passedCard }` copies the card one
level deep, so the copy holds the same `progress` reference. -/
structure MCard where
  id : String
  progressRef : ℕ
deriving DecidableEq, Repr

/-- The slice of the reducer state the `PASS_CARD` progress writes read:
phase, review time, the failed queues and the current card. -/
structure MState where
  phase : Review.ReviewPhase
  reviewTime : ℤ
  failedCardsLevel1 : List MCard
  failedCardsLevel2 : List MCard
  currentCard : Option MCard
deriving DecidableEq, Repr

/-- The effect of the `PASS_CARD` branch on the store of progress records
(the "Update the passed card" lines): `updatedCard = { ...passedCard }`
copies the progress *reference*, so the assignments
`updatedCard.progress.level = …` / `updatedCard.progress.reviewed = …`
write through it into the very record the input state's `currentCard` (and
every other alias of the card) still points at.  Returns the store after
the action. -/
def passCardProgressWrites (state : MState)
    (store : List Review.CardProgress) : List Review.CardProgress :=
  if state.phase ≠ .answer ∧ state.phase ≠ .question then store
  else
    match state.currentCard with
    | none => store
    | some passedCard =>
      let ref := passedCard.progressRef
      let old := store.getD ref { level := 0, reviewed := none }
      let newProgress : Review.CardProgress :=
        if passedCard ∈ state.failedCardsLevel2 then
          { level := 0, reviewed := old.reviewed }
        else if old.level ≠ 0 ∧ old.reviewed ≠ none then
          { level := max
              ((((state.reviewTime : ℚ) -
                  ((old.reviewed.getD 0 : ℤ) : ℚ)) / Review.MS_PER_DAY) * 2)
              (max old.level (1 / 2)),
            reviewed := some state.reviewTime }
        else { level := 1 / 2, reviewed := some state.reviewTime }
      store.set ref newProgress

/-- A concrete question-phase state whose current card points at progress
record 0. -/
def mutStateQ : MState :=
  { phase := .question, reviewTime := 86400000, failedCardsLevel1 := [],
    failedCardsLevel2 := [], currentCard := some { id := "a", progressRef := 0 } }

/-- The progress store before the `PASS_CARD` action: one record, level 1,
last reviewed at epoch 0. -/
def mutStoreBefore : List Review.CardProgress :=
  [{ level := 1, reviewed := some 0 }]

end MutModel

end Tensai

namespace Tensai

/-- C1 counterexample: on a concrete pair of diverged revisions where `a` is
unfinished and `b` is finished, the resolver picks the *unfinished* revision
`a`, so the claimed rule "a finished review beats an unfinished one" fails. -/
theorem reviewConflictFinishedLoses :
    Summary.reviewConflictResolver Summary.unfinishedEmptyReview
        Summary.finishedReview = Summary.unfinishedEmptyReview ∧
      Summary.unfinishedEmptyReview ≠ Summary.finishedReview ∧
      Summary.unfinishedEmptyReview.finished = false ∧
      Summary.finishedReview.finished = true ∧
      Summary.unfinishedEmptyReview.modified <
        Summary.finishedReview.modified := by
  refine ⟨rfl, ?_, rfl, rfl, by decide⟩
  intro h
  exact absurd (congrArg Summary.ReviewContent.finished h) (by decide)

/-- C1 (amended): the conflict-resolution callback picks the winner by
ordered predicates — an *unfinished* review beats a finished one; otherwise
a review with non-empty history beats one with empty history; otherwise the
revision with the latest `modified` timestamp wins (ties going to the first
revision). -/
theorem reviewConflictResolver_spec (a b : Summary.ReviewContent) :
    ((¬a.finished ∧ b.finished) →
        Summary.reviewConflictResolver a b = a) ∧
    ((a.finished ∧ ¬b.finished) →
        Summary.reviewConflictResolver a b = b) ∧
    ((a.finished ∧ b.finished) →
        Summary.reviewConflictResolver a b = a ∨
          Summary.reviewConflictResolver a b = b) ∧
    ((¬a.finished ∧ ¬b.finished ∧ a.history ≠ [] ∧ b.history = []) →
        Summary.reviewConflictResolver a b = a) ∧
    ((¬a.finished ∧ ¬b.finished ∧ a.history = [] ∧ b.history ≠ []) →
        Summary.reviewConflictResolver a b = b) ∧
    ((¬a.finished ∧ ¬b.finished ∧ (a.history = [] ↔ b.history = [])) →
        Summary.reviewConflictResolver a b =
          if b.modified ≤ a.modified then a else b) := by
  unfold Summary.reviewConflictResolver
  refine ⟨?_, ?_, ?_, ?_, ?_, ?_⟩
  · rintro ⟨ha, hb⟩
    simp [hb]
  · rintro ⟨ha, hb⟩
    simp [ha, hb]
  · rintro ⟨ha, hb⟩
    simp [hb]
  · rintro ⟨ha, hb, hane, hbe⟩
    simp [ha, hb, List.isEmpty_iff, hbe, hane]
  · rintro ⟨ha, hb, hae, hbne⟩
    simp [ha, hb, List.isEmpty_iff, hae, hbne]
  · rintro ⟨ha, hb, hiff⟩
    rcases Classical.em (a.history = []) with hae | hane
    · have hbe : b.history = [] := hiff.mp hae
      simp [ha, hb, List.isEmpty_iff, hae, hbe]
    · have hbne : b.history ≠ [] := fun hbe => hane (hiff.mpr hbe)
      simp [ha, hb, List.isEmpty_iff, hane, hbne]

/-- Witness for `reviewConflictResolver_spec`: instantiating at the concrete
revisions shows the first ordered predicate firing (the unfinished empty
revision beating the finished one). -/
theorem reviewConflictResolver_spec_witness :
    Summary.reviewConflictResolver Summary.unfinishedEmptyReview
      Summary.finishedReview = Summary.unfinishedEmptyReview :=
  (reviewConflictResolver_spec Summary.unfinishedEmptyReview
      Summary.finishedReview).1 ⟨by decide, by decide⟩

/-- C5: for a fixed positive `level`, the overdueness score is strictly
monotonically increasing in the overdue gap `t − due`: whenever one due
progress record (due₁ ≤ t₁) is less overdue than another
(`t₁ − due₁ < t₂ − due₂`), its score is strictly smaller. -/
theorem getOverdueness_strictMono (level due₁ t₁ due₂ t₂ : ℝ)
    (hlevel : 0 < level) (hdue : due₁ ≤ t₁)
    (hlt : t₁ - due₁ < t₂ - due₂) :
    Overdue.getOverdueness due₁ level t₁ <
      Overdue.getOverdueness due₂ level t₂ := by
  unfold Overdue.getOverdueness
  have hms : (0:ℝ) < Overdue.MS_PER_DAY := by norm_num [Overdue.MS_PER_DAY]
  have hdays : (t₁ - due₁) / Overdue.MS_PER_DAY <
      (t₂ - due₂) / Overdue.MS_PER_DAY := by
    exact div_lt_div_of_pos_right hlt hms
  have hlin : (t₁ - due₁) / Overdue.MS_PER_DAY / level <
      (t₂ - due₂) / Overdue.MS_PER_DAY / level := by
    exact div_lt_div_of_pos_right hdays hlevel
  have hk : (0:ℝ) < Overdue.EXP_FACTOR := by norm_num [Overdue.EXP_FACTOR]
  have hexp : Real.exp (Overdue.EXP_FACTOR *
        ((t₁ - due₁) / Overdue.MS_PER_DAY)) <
      Real.exp (Overdue.EXP_FACTOR * ((t₂ - due₂) / Overdue.MS_PER_DAY)) :=
    Real.exp_lt_exp.mpr (mul_lt_mul_of_pos_left hdays hk)
  exact add_lt_add hlin (sub_lt_sub_right hexp 1)

/-- Witness for `getOverdueness_strictMono`: a record one day overdue scores
strictly less than the same record two days overdue (at level 1). -/
theorem getOverdueness_strictMono_witness :
    Overdue.getOverdueness 0 1 86400000 <
      Overdue.getOverdueness 0 1 172800000 :=
  getOverdueness_strictMono 1 0 86400000 0 172800000 (by norm_num)
    (by norm_num) (by norm_num)

/-! ### Database bookkeeping lemmas -/

namespace Store

theorem dbGet_cons (k' : DbKey) (d : Doc) (db : Db) (k : DbKey) :
    dbGet ((k', d) :: db) k = if k' = k then some d else dbGet db k := by
  by_cases h : k' = k <;> simp [dbGet, List.find?_cons, h]

theorem dbGet_replace_same {db : Db} {k : DbKey} (d : Doc)
    (h : (dbGet db k).isSome) : dbGet (dbReplace db k d) k = some d := by
  induction db with
  | nil => simp [dbGet] at h
  | cons kv db ih =>
    obtain ⟨k', d'⟩ := kv
    by_cases hk : k' = k
    · simp [dbReplace, hk, dbGet_cons]
    · rw [dbGet_cons, if_neg hk] at h
      have : dbReplace ((k', d') :: db) k d = (k', d') :: dbReplace db k d := by
        simp [dbReplace, hk]
      rw [this, dbGet_cons, if_neg hk]
      exact ih h

theorem dbGet_replace_ne {db : Db} {k : DbKey} (d : Doc) {k' : DbKey}
    (h : k' ≠ k) : dbGet (dbReplace db k d) k' = dbGet db k' := by
  induction db with
  | nil => simp [dbReplace]
  | cons kv db ih =>
    obtain ⟨k₀, d₀⟩ := kv
    by_cases hk : k₀ = k
    · subst hk
      have : dbReplace ((k₀, d₀) :: db) k₀ d = (k₀, d) :: dbReplace db k₀ d := by
        simp [dbReplace]
      rw [this, dbGet_cons, dbGet_cons, if_neg (fun he => h he.symm),
        if_neg (fun he => h he.symm)]
      exact ih
    · have : dbReplace ((k₀, d₀) :: db) k d = (k₀, d₀) :: dbReplace db k d := by
        simp [dbReplace, hk]
      rw [this, dbGet_cons, dbGet_cons]
      by_cases h0 : k₀ = k'
      · simp [h0]
      · rw [if_neg h0, if_neg h0]
        exact ih

theorem dbGet_delete_same (db : Db) (k : DbKey) :
    dbGet (dbDelete db k) k = none := by
  have hfind : (dbDelete db k).find? (fun kv => kv.1 == k) = none := by
    rw [List.find?_eq_none]
    intro kv hkv
    have := (List.mem_filter.mp hkv).2
    simpa using this
  simp [dbGet, hfind]

theorem dbGet_delete_ne {db : Db} {k k' : DbKey} (h : k' ≠ k) :
    dbGet (dbDelete db k) k' = dbGet db k' := by
  induction db with
  | nil => simp [dbDelete]
  | cons kv db ih =>
    obtain ⟨k₀, d₀⟩ := kv
    by_cases hk : k₀ = k
    · subst hk
      have : dbDelete ((k₀, d₀) :: db) k₀ = dbDelete db k₀ := by
        simp [dbDelete]
      rw [this, dbGet_cons, if_neg (fun he => h he.symm)]
      exact ih
    · have : dbDelete ((k₀, d₀) :: db) k = (k₀, d₀) :: dbDelete db k := by
        simp [dbDelete, hk]
      rw [this, dbGet_cons, dbGet_cons]
      by_cases h0 : k₀ = k' <;> simp [h0, ih]

theorem dbDelete_of_get_none {db : Db} {k : DbKey}
    (h : dbGet db k = none) : dbDelete db k = db := by
  have hfind : db.find? (fun kv => kv.1 == k) = none := by
    cases hf : db.find? (fun kv => kv.1 == k) with
    | none => rfl
    | some kv => simp [dbGet, hf] at h
  rw [List.find?_eq_none] at hfind
  unfold dbDelete
  rw [List.filter_eq_self]
  intro kv hkv
  have := hfind kv hkv
  simpa using this

theorem dbDelete_idem (db : Db) (k : DbKey) :
    dbDelete (dbDelete db k) k = dbDelete db k :=
  dbDelete_of_get_none (dbGet_delete_same db k)

theorem cardUpdate_isEmpty_iff {u : CardUpdate} :
    u.isEmpty = true ↔
      u.front = none ∧ u.back = none ∧ u.keywords = none ∧ u.tags = none ∧
        u.starred = none ∧ u.created = none ∧ u.modified = none := by
  simp [CardUpdate.isEmpty, Bool.and_eq_true, Option.isNone_iff_eq_none,
    and_assoc]

theorem applyCardUpdate_empty {doc : CardContent} {u : CardUpdate}
    (h : u.isEmpty = true) : applyCardUpdate doc u = doc := by
  obtain ⟨h1, h2, h3, h4, h5, h6, h7⟩ := cardUpdate_isEmpty_iff.mp h
  simp [applyCardUpdate, h1, h2, h3, h4, h5, h6, h7]

theorem map_jsNormalize (l : List String) : List.map jsNormalize l = l := by
  show List.map (fun s => s) l = l
  exact List.map_id' l

theorem optionMap_jsNormalize (o : Option (List String)) :
    Option.map (List.map jsNormalize) o = o := by
  cases o <;> simp [map_jsNormalize]

theorem normalizeCardForDB_eq (c : CardContent)
    (uk ut : Option (List String)) (us : Option Bool) :
    normalizeCardForDB c uk ut us =
      { front := c.front, back := c.back,
        keywords := if uk = some [] then none else c.keywords,
        tags := if ut = some [] then none else c.tags,
        starred := if us = some false then none else c.starred,
        created := c.created, modified := c.modified } := by
  rcases uk with _ | (_ | ⟨k, ks⟩) <;> rcases ut with _ | (_ | ⟨t, ts⟩) <;>
    rcases us with _ | (_ | _) <;>
    simp [normalizeCardForDB, jsNormalize, optionMap_jsNormalize,
      map_jsNormalize]

theorem updateProgress_found {db : Db} {id : String} {pd : ProgressContent}
    (u : ProgressUpdate)
    (hp : dbGet db (.progress id) = some (.progress pd)) :
    ∃ db2,
      updateProgress db id u =
        (.ok { level := u.level.getD pd.level, due := u.due.getD pd.due },
          db2) ∧
      dbGet db2 (.progress id) =
        some (.progress
          { level := u.level.getD pd.level, due := u.due.getD pd.due }) ∧
      ∀ k, k ≠ DbKey.progress id → dbGet db2 k = dbGet db k := by
  have hsome : (dbGet db (.progress id)).isSome := by rw [hp]; rfl
  obtain ⟨plevel, pdue⟩ := pd
  obtain ⟨ulevel, udue⟩ := u
  unfold updateProgress
  rw [hp]
  rcases udue with _ | d <;> rcases ulevel with _ | l
  · exact ⟨db, rfl, hp, fun k hk => rfl⟩
  · by_cases hl : plevel = l
    · subst hl
      exact ⟨db, by simp, by simpa using hp, fun k hk => rfl⟩
    · refine ⟨dbReplace db (.progress id)
        (.progress { level := l, due := pdue }), by simp [hl], ?_, ?_⟩
      · simpa using dbGet_replace_same _ hsome
      · intro k hk
        simpa using dbGet_replace_ne _ hk
  · by_cases hd : pdue = d
    · subst hd
      exact ⟨db, by simp, by simpa using hp, fun k hk => rfl⟩
    · refine ⟨dbReplace db (.progress id)
        (.progress { level := plevel, due := d }), by simp [hd], ?_, ?_⟩
      · simpa using dbGet_replace_same _ hsome
      · intro k hk
        simpa using dbGet_replace_ne _ hk
  · by_cases hd : pdue = d
    · subst hd
      by_cases hl : plevel = l
      · subst hl
        exact ⟨db, by simp, by simpa using hp, fun k hk => rfl⟩
      · refine ⟨dbReplace db (.progress id)
          (.progress { level := l, due := pdue }), by simp [hl], ?_, ?_⟩
        · simpa using dbGet_replace_same _ hsome
        · intro k hk
          simpa using dbGet_replace_ne _ hk
    · by_cases hl : plevel = l
      · subst hl
        refine ⟨dbReplace db (.progress id)
          (.progress { level := plevel, due := d }), by simp [hd], ?_, ?_⟩
        · simpa using dbGet_replace_same _ hsome
        · intro k hk
          simpa using dbGet_replace_ne _ hk
      · refine ⟨dbReplace db (.progress id)
          (.progress { level := l, due := d }), by simp [hd, hl], ?_, ?_⟩
        · simpa using dbGet_replace_same _ hsome
        · intro k hk
          simpa using dbGet_replace_ne _ hk

/-- C7: updating an existing card through `putCard` and reading it back
with `getCard` reproduces every supplied field except `modified`:
`modified` is bumped to the write time whenever any card-content field was
supplied, and is left untouched when only progress fields were supplied.
(A supplied `due` date must not be the epoch instant 0, which the store's
read path cannot distinguish from "no due date".) -/
theorem putCard_roundtrip
    (db : Db) (input : PartialCard) (now : ℤ) (ids : List String)
    (id : String) (cd : CardContent) (pd : ProgressContent)
    (hid : input.id = some id)
    (hc : dbGet db (.card id) = some (.card cd))
    (hp : dbGet db (.progress id) = some (.progress pd))
    (hdue0 : ∀ d, (progressUpdateOf input).due = some d → d ≠ 0) :
    ∃ c db2, putCard db input now ids = (.ok c, db2) ∧
      ∃ g, getCard db2 id = .ok g ∧
        (∀ f, input.front = some f → g.front = f) ∧
        (∀ bk, input.back = some bk → g.back = bk) ∧
        (∀ ks, input.keywords = some ks → g.keywords = ks) ∧
        (∀ ts, input.tags = some ts → g.tags = ts) ∧
        (∀ b, input.starred = some b → g.starred = b) ∧
        (∀ t, input.created = some t → g.created = t) ∧
        (∀ l, (progressUpdateOf input).level = some l →
          g.progress.level = l) ∧
        (∀ d, (progressUpdateOf input).due = some d →
          g.progress.due = some d) ∧
        ((cardUpdateOf input).isEmpty = false → g.modified = now) ∧
        ((cardUpdateOf input).isEmpty = true → g.modified = cd.modified) := by
  have hcsome : (dbGet db (.card id)).isSome := by rw [hc]; rfl
  cases hemp : (cardUpdateOf input).isEmpty with
  | true =>
    obtain ⟨hf1, hf2, hf3, hf4, hf5, hf6, hf7⟩ :=
      cardUpdate_isEmpty_iff.mp hemp
    have hupd : updateCard db id (cardUpdateOf input) now = (.ok cd, db) := by
      unfold updateCard
      rw [hc]
      simp [hemp, applyCardUpdate_empty hemp]
    obtain ⟨db2, hprog, hstored, hother⟩ :=
      updateProgress_found (progressUpdateOf input) hp
    refine ⟨mergeDocs id cd
      { level := (progressUpdateOf input).level.getD pd.level,
        due := (progressUpdateOf input).due.getD pd.due }, db2, ?_,
      mergeDocs id cd
      { level := (progressUpdateOf input).level.getD pd.level,
        due := (progressUpdateOf input).due.getD pd.due }, ?_, ?_, ?_, ?_,
      ?_, ?_, ?_, ?_, ?_, ?_, ?_⟩
    · simp only [putCard, hid, hupd, hprog]
    · unfold getCard
      rw [hother _ (by simp), hc, hstored]
    · intro f hf
      have : input.front = none := hf1
      simp [this] at hf
    · intro bk hbk
      have : input.back = none := hf2
      simp [this] at hbk
    · intro ks hks
      have : input.keywords = none := hf3
      simp [this] at hks
    · intro ts hts
      have : input.tags = none := hf4
      simp [this] at hts
    · intro b hb
      have : input.starred = none := hf5
      simp [this] at hb
    · intro t ht
      have : input.created = none := hf6
      simp [this] at ht
    · intro l hl
      simp [mergeDocs, parseProgress, hl]
    · intro d hd
      have hdne := hdue0 d hd
      simp [mergeDocs, parseProgress, hd, hdne]
    · intro h
      exact Bool.noConfusion h
    · intro _
      rfl
  | false =>
    have hupd : updateCard db id (cardUpdateOf input) now =
        (.ok { normalizeCardForDB (applyCardUpdate cd (cardUpdateOf input))
              (cardUpdateOf input).keywords (cardUpdateOf input).tags
              (cardUpdateOf input).starred with modified := now },
          dbReplace db (.card id)
            (.card { normalizeCardForDB
                (applyCardUpdate cd (cardUpdateOf input))
                (cardUpdateOf input).keywords (cardUpdateOf input).tags
                (cardUpdateOf input).starred with modified := now })) := by
      unfold updateCard
      rw [hc]
      simp [hemp]
    have hpget1 : dbGet (dbReplace db (.card id)
        (.card { normalizeCardForDB (applyCardUpdate cd (cardUpdateOf input))
            (cardUpdateOf input).keywords (cardUpdateOf input).tags
            (cardUpdateOf input).starred with modified := now }))
        (.progress id) = some (.progress pd) := by
      rw [dbGet_replace_ne _ (by simp)]
      exact hp
    obtain ⟨db2, hprog, hstored, hother⟩ :=
      updateProgress_found (progressUpdateOf input) hpget1
    have hcget2 : dbGet db2 (.card id) =
        some (.card { normalizeCardForDB
            (applyCardUpdate cd (cardUpdateOf input))
            (cardUpdateOf input).keywords (cardUpdateOf input).tags
            (cardUpdateOf input).starred with modified := now }) := by
      rw [hother _ (by simp)]
      exact dbGet_replace_same _ hcsome
    refine ⟨mergeDocs id
      { normalizeCardForDB (applyCardUpdate cd (cardUpdateOf input))
          (cardUpdateOf input).keywords (cardUpdateOf input).tags
          (cardUpdateOf input).starred with modified := now }
      { level := (progressUpdateOf input).level.getD pd.level,
        due := (progressUpdateOf input).due.getD pd.due }, db2, ?_,
      mergeDocs id
      { normalizeCardForDB (applyCardUpdate cd (cardUpdateOf input))
          (cardUpdateOf input).keywords (cardUpdateOf input).tags
          (cardUpdateOf input).starred with modified := now }
      { level := (progressUpdateOf input).level.getD pd.level,
        due := (progressUpdateOf input).due.getD pd.due }, ?_, ?_, ?_, ?_,
      ?_, ?_, ?_, ?_, ?_, ?_, ?_⟩
    · simp only [putCard, hid, hupd, hprog]
    · unfold getCard
      rw [hcget2, hstored]
    · intro f hf
      have hcu : (cardUpdateOf input).front = some f := hf
      simp [mergeDocs, normalizeCardForDB_eq, applyCardUpdate, hcu]
    · intro bk hbk
      have hcu : (cardUpdateOf input).back = some bk := hbk
      simp [mergeDocs, normalizeCardForDB_eq, applyCardUpdate, hcu]
    · intro ks hks
      have hcu : (cardUpdateOf input).keywords = some ks := hks
      rcases ks with _ | ⟨k, ks⟩ <;>
        simp [mergeDocs, normalizeCardForDB_eq, applyCardUpdate, hcu]
    · intro ts hts
      have hcu : (cardUpdateOf input).tags = some ts := hts
      rcases ts with _ | ⟨t, ts⟩ <;>
        simp [mergeDocs, normalizeCardForDB_eq, applyCardUpdate, hcu]
    · intro b hb
      have hcu : (cardUpdateOf input).starred = some b := hb
      cases b <;>
        simp [mergeDocs, normalizeCardForDB_eq, applyCardUpdate, hcu]
    · intro t ht
      have hcu : (cardUpdateOf input).created = some t := ht
      simp [mergeDocs, normalizeCardForDB_eq, applyCardUpdate, hcu]
    · intro l hl
      simp [mergeDocs, parseProgress, hl]
    · intro d hd
      have hdne := hdue0 d hd
      simp [mergeDocs, parseProgress, hd, hdne]
    · intro _
      rfl
    · intro h
      exact Bool.noConfusion h

/-- Witness for `putCard_roundtrip`: a concrete database with one stored
card whose front and progress level are updated and read back. -/
theorem putCard_roundtrip_witness :
    ∃ c db2, putCard
        ((DbKey.progress "a", Doc.progress { level := 1, due := 5 }) ::
          dbWithCardA)
        { id := some "a", front := some "g", back := none, keywords := none,
          tags := none, starred := none, created := none, modified := none,
          progress := some { level := some 2, due := some 9 } } 11 [] =
      (.ok c, db2) ∧
      ∃ g, getCard db2 "a" = .ok g ∧ g.front = "g" ∧
        g.progress.level = 2 ∧ g.progress.due = some 9 ∧ g.modified = 11 := by
  obtain ⟨c, db2, hput, g, hget, hfr, -, -, -, -, -, hlev, hdue, hmod, -⟩ :=
    putCard_roundtrip
      ((DbKey.progress "a", Doc.progress { level := 1, due := 5 }) ::
        dbWithCardA)
      { id := some "a", front := some "g", back := none, keywords := none,
        tags := none, starred := none, created := none, modified := none,
        progress := some { level := some 2, due := some 9 } } 11 [] "a"
      { front := "x", back := "y", keywords := none, tags := none,
        starred := none, created := 0, modified := 0 }
      { level := 1, due := 5 } rfl (by decide) (by decide)
      (by intro d hd; simp [progressUpdateOf] at hd; omega)
  exact ⟨c, db2, hput, g, hget, hfr "g" rfl, hlev 2 rfl, hdue 9 rfl,
    hmod (by decide)⟩

/-- C8: `deleteCard` removes both the card and the progress documents, and
it is idempotent — deleting a nonexistent or already-deleted id leaves the
database untouched, so the second of two consecutive calls is a no-op.
(There is no error case: `deleteCard` is a total function of the database,
modelling "best-effort delete … deleting a nonexistent id succeeds
silently".) -/
theorem deleteCard_idempotent (db : Db) (id : String) :
    deleteCard id (deleteCard id db) = deleteCard id db ∧
      dbGet (deleteCard id db) (.card id) = none ∧
      dbGet (deleteCard id db) (.progress id) = none := by
  have hcard : dbGet (deleteCard id db) (.card id) = none := by
    unfold deleteCard stubbornDelete
    rw [dbGet_delete_ne (by simp), dbGet_delete_same]
  have hprog : dbGet (deleteCard id db) (.progress id) = none := by
    unfold deleteCard stubbornDelete
    rw [dbGet_delete_same]
  refine ⟨?_, hcard, hprog⟩
  show dbDelete (dbDelete (deleteCard id db) (.card id))
      (.progress id) = deleteCard id db
  rw [dbDelete_of_get_none hcard, dbDelete_of_get_none hprog]

/-- C6: creating a card without an id.  First, if the card document was
written but the paired progress write fails (modelled, as in the
repository's own test, by a conflicting progress document already occupying
the fresh id), the just-written card document is deleted — the database is
restored exactly — and the error is propagated.  Second, a 409 conflict on
the card write itself (the fresh id colliding with an existing card) leads
to a silent retry with the next freshly generated id, which succeeds and
writes both documents. -/
theorem putCard_new_spec :
    (∀ (db : Db) (input : PartialCard) (now : ℤ) (i : String)
        (rest : List String),
        input.id = none →
        dbGet db (.card i) = none →
        (dbGet db (.progress i)).isSome →
        putCard db input now (i :: rest) = (.error .conflict, db)) ∧
    (∀ (db : Db) (input : PartialCard) (now : ℤ)
        (i1 i2 : String),
        input.id = none →
        (dbGet db (.card i1)).isSome →
        dbGet db (.card i2) = none →
        dbGet db (.progress i2) = none →
        ∃ c db2, putCard db input now [i1, i2] = (.ok c, db2) ∧
          c.id = i2 ∧
          dbGet db2 (.card i2) =
            some (.card (newCardContent input now)) ∧
          dbGet db2 (.progress i2) =
            some (.progress (newProgressContent input))) := by
  constructor
  · intro db input now i rest hid hc hp
    have hput1 : dbPutNew db (.card i)
        (.card (newCardContent input now)) =
        some ((DbKey.card i, Doc.card (newCardContent input now)) ::
          db) := by
      simp [dbPutNew, hc]
    have hget2 : dbGet
        ((DbKey.card i, Doc.card (newCardContent input now)) :: db)
        (.progress i) = dbGet db (.progress i) := by
      rw [dbGet_cons, if_neg (by simp)]
    have hput2 : dbPutNew
        ((DbKey.card i, Doc.card (newCardContent input now)) :: db)
        (.progress i) (.progress (newProgressContent input)) =
        none := by
      simp [dbPutNew, hget2, hp]
    have hdel : dbDelete
        ((DbKey.card i, Doc.card (newCardContent input now)) :: db)
        (.card i) = db := by
      show List.filter _ _ = db
      rw [List.filter_cons]
      simp only [bne_self_eq_false]
      exact dbDelete_of_get_none hc
    simp [putCard, hid, putNewCard, tryPutNewCard, hput1,
      hput2, hdel]
  · intro db input now i1 i2 hid h1 h2 h3
    have hput1 : dbPutNew db (.card i1)
        (.card (newCardContent input now)) = none := by
      simp [dbPutNew, h1]
    have hput2 : dbPutNew db (.card i2)
        (.card (newCardContent input now)) =
        some ((DbKey.card i2, Doc.card (newCardContent input now)) ::
          db) := by
      simp [dbPutNew, h2]
    have hget3 : dbGet
        ((DbKey.card i2, Doc.card (newCardContent input now)) :: db)
        (.progress i2) = none := by
      rw [dbGet_cons, if_neg (by simp)]
      exact h3
    have hput3 : dbPutNew
        ((DbKey.card i2, Doc.card (newCardContent input now)) :: db)
        (.progress i2) (.progress (newProgressContent input)) =
        some ((DbKey.progress i2,
            Doc.progress (newProgressContent input)) ::
          (DbKey.card i2, Doc.card (newCardContent input now)) ::
          db) := by
      simp [dbPutNew, hget3]
    refine ⟨mergeDocs i2 (newCardContent input now)
        (newProgressContent input),
      (DbKey.progress i2, Doc.progress (newProgressContent input)) ::
        (DbKey.card i2, Doc.card (newCardContent input now)) :: db,
      ?_, rfl, ?_, ?_⟩
    · simp [putCard, hid, putNewCard, tryPutNewCard,
        hput1, hput2, hput3]
    · rw [dbGet_cons, if_neg (by simp), dbGet_cons, if_pos rfl]
    · rw [dbGet_cons, if_pos rfl]

/-- Witness for `putCard_new_spec`: a concrete database exercising both
conjuncts — one where the fresh id's progress slot is occupied (rollback)
and one where the first fresh id's card slot is occupied (retry). -/
theorem putCard_new_spec_witness :
    (putCard dbWithProgressA sampleNewInput 7 ["a"] =
      (.error .conflict, dbWithProgressA)) ∧
    (∃ c db2, putCard dbWithCardA sampleNewInput 7 ["a", "b"] =
      (.ok c, db2) ∧ c.id = "b") := by
  constructor
  · exact putCard_new_spec.1 dbWithProgressA sampleNewInput 7 "a" [] rfl
      (by decide) (by decide)
  · obtain ⟨c, db2, hrun, hcid, -, -⟩ :=
      putCard_new_spec.2 dbWithCardA sampleNewInput 7 "a" "b" rfl
        (by decide) (by decide) (by decide)
    exact ⟨c, db2, hrun, hcid⟩

end Store

/-! ### Review reducer lemmas -/

namespace Review

theorem poolOf_length (s : ReviewState) :
    (poolOf s).length = s.failedCardsLevel2.length +
      s.failedCardsLevel1.length + s.heap.length := by
  simp [poolOf]
  omega

theorem assembleNext_frame (s : ReviewState) (cur1 : Option Card)
    (heap1 : List Card) (ncip1 : ℕ) (next1 : Option Card) :
    (assembleNext s cur1 heap1 ncip1 next1).failedCardsLevel2 =
        s.failedCardsLevel2 ∧
      (assembleNext s cur1 heap1 ncip1 next1).failedCardsLevel1 =
        s.failedCardsLevel1 ∧
      (assembleNext s cur1 heap1 ncip1 next1).reviewTime = s.reviewTime ∧
      (assembleNext s cur1 heap1 ncip1 next1).phase = s.phase ∧
      (assembleNext s cur1 heap1 ncip1 next1).heap = heap1 :=
  ⟨rfl, rfl, rfl, rfl, rfl⟩

theorem assembleNext_not_promoted {s : ReviewState} {cur1 : Option Card}
    {heap1 : List Card} {ncip1 : ℕ} {next1 : Option Card}
    (h : ¬(cur1 = none ∧ s.currentCard ≠ none ∧ next1 ≠ none)) :
    (assembleNext s cur1 heap1 ncip1 next1).currentCard = cur1 ∧
      (assembleNext s cur1 heap1 ncip1 next1).nextCard = next1 := by
  simp [assembleNext, h]

theorem assembleNext_promoted {s : ReviewState} {cur1 : Option Card}
    {heap1 : List Card} {ncip1 : ℕ} {next1 : Option Card}
    (h : cur1 = none ∧ s.currentCard ≠ none ∧ next1 ≠ none) :
    (assembleNext s cur1 heap1 ncip1 next1).currentCard = next1 ∧
      (assembleNext s cur1 heap1 ncip1 next1).nextCard = none := by
  simp [assembleNext, h]

theorem assembleNext_history_tracking (s : ReviewState) (cur1 : Option Card)
    (heap1 : List Card) (ncip1 : ℕ) (next1 : Option Card) :
    (assembleNext s cur1 heap1 ncip1 next1).history = s.history ∨
      ∃ p, (assembleNext s cur1 heap1 ncip1 next1).currentCard = some p ∧
        (assembleNext s cur1 heap1 ncip1 next1).history =
          s.history.erase p := by
  by_cases h : cur1 = none ∧ s.currentCard ≠ none ∧ next1 ≠ none
  · obtain ⟨p, hn⟩ := Option.ne_none_iff_exists'.mp h.2.2
    subst hn
    right
    refine ⟨p, (assembleNext_promoted h).1, ?_⟩
    unfold assembleNext
    dsimp only
    rw [if_pos h]
  · rcases hc : cur1 with _ | p
    · subst hc
      left
      unfold assembleNext
      dsimp only
      rw [if_neg h]
    · subst hc
      right
      refine ⟨p, (assembleNext_not_promoted h).1, ?_⟩
      unfold assembleNext
      dsimp only
      rw [if_neg h]

theorem updateNextCard_fq (s : ReviewState) (seed : ℚ) (m : UpdateMode) :
    (updateNextCard s seed m).failedCardsLevel2 = s.failedCardsLevel2 ∧
      (updateNextCard s seed m).failedCardsLevel1 = s.failedCardsLevel1 ∧
      (updateNextCard s seed m).reviewTime = s.reviewTime := by
  unfold updateNextCard
  dsimp only
  split
  · split <;> exact ⟨rfl, rfl, rfl⟩
  · cases m <;> exact ⟨rfl, rfl, rfl⟩

theorem updateNextCard_history_tracking (s : ReviewState) (seed : ℚ)
    (m : UpdateMode) :
    (updateNextCard s seed m).history = s.history ∨
      ∃ p, (updateNextCard s seed m).currentCard = some p ∧
        (updateNextCard s seed m).history = s.history.erase p := by
  unfold updateNextCard
  dsimp only
  split
  · split <;> exact Or.inl rfl
  · cases m <;> exact assembleNext_history_tracking _ _ _ _ _

theorem updateNextCard_last_in_history (t : ReviewState) (seed : ℚ)
    (m : UpdateMode) (u : Card) (l : List Card)
    (hh : t.history = l ++ [u]) :
    (updateNextCard t seed m).history.getLast? = some u ∨
      (updateNextCard t seed m).currentCard = some u := by
  rcases updateNextCard_history_tracking t seed m with h | ⟨p, hcp, h⟩
  · left
    rw [h, hh]
    exact List.getLast?_concat l
  · by_cases hpu : p = u
    · right
      rw [hcp, hpu]
    · left
      rw [h, hh, List.erase_append]
      by_cases hpl : p ∈ l
      · rw [if_pos hpl]
        exact List.getLast?_concat _
      · rw [if_neg hpl]
        have hnm : p ∉ [u] := by simp [hpu]
        rw [List.erase_of_not_mem hnm]
        exact List.getLast?_concat l

theorem getCardAtIndex_eq (fq2 fq1 heap : List Card) (i : ℤ)
    (h0 : 0 ≤ i) :
    getCardAtIndex fq2 fq1 heap i = (fq2 ++ fq1 ++ heap)[i.toNat]? := by
  unfold getCardAtIndex
  by_cases hA : i < (fq2.length : ℤ)
  · rw [if_pos hA, if_pos h0]
    have ht : i.toNat < fq2.length := by omega
    rw [List.getElem?_append_left (by simp [List.length_append]; omega),
      List.getElem?_append_left ht]
  · rw [if_neg hA]
    by_cases hB : i < ((fq2.length + fq1.length : ℕ) : ℤ)
    · rw [if_pos hB]
      have h1 : i.toNat < (fq2 ++ fq1).length := by
        simp [List.length_append]
        omega
      have h2 : fq2.length ≤ i.toNat := by omega
      rw [List.getElem?_append_left h1, List.getElem?_append_right h2]
      congr 1
      omega
    · rw [if_neg hB]
      have h1 : (fq2 ++ fq1).length ≤ i.toNat := by
        simp [List.length_append]
        omega
      rw [List.getElem?_append_right h1]
      congr 1
      simp [List.length_append]
      omega

theorem findNextCard_spec (fq2 fq1 heap : List Card) (cur : Option Card)
    (seed : ℚ) (n i : ℕ) (h0 : 0 ≤ seed) (h1 : seed < 1)
    (hn : n = (fq2 ++ fq1 ++ heap).length) (hpos : 0 < n)
    (hi : i = (⌊seed * (n : ℚ)⌋).toNat) :
    i < n ∧
    ((fq2 ++ fq1 ++ heap)[i]? ≠ cur →
      findNextCard fq2 fq1 heap cur seed = (fq2 ++ fq1 ++ heap)[i]?) ∧
    (∀ c, cur = some c → (fq2 ++ fq1 ++ heap)[i]? = some c →
      (n = 1 → findNextCard fq2 fq1 heap cur seed = none) ∧
      (1 < n → findNextCard fq2 fq1 heap cur seed =
        (fq2 ++ fq1 ++ heap)[if i < n - 1 then i + 1 else i - 1]?)) := by
  have hlen : fq2.length + fq1.length + heap.length = n := by
    rw [hn]
    simp [List.length_append]
    omega
  have hI0 : 0 ≤ ⌊seed * (n : ℚ)⌋ :=
    Int.floor_nonneg.mpr (mul_nonneg h0 (by positivity))
  have hIlt : ⌊seed * (n : ℚ)⌋ < (n : ℤ) := by
    rw [Int.floor_lt]
    push_cast
    calc seed * (n : ℚ) < 1 * (n : ℚ) := by
          exact mul_lt_mul_of_pos_right h1 (by exact_mod_cast hpos)
      _ = (n : ℚ) := one_mul _
  have hilt : i < n := by omega
  refine ⟨hilt, ?_, ?_⟩
  all_goals
    unfold findNextCard
    dsimp only
    rw [if_neg (by omega : ¬fq2.length + fq1.length + heap.length = 0)]
    rw [hlen]
    rw [getCardAtIndex_eq fq2 fq1 heap _ hI0, ← hi]
  · intro hne2
    rw [if_neg]
    rintro ⟨-, hEq⟩
    exact hne2 hEq
  · intro c hc hg
    have hguard : (fq2 ++ fq1 ++ heap)[i]? ≠ none ∧
        (fq2 ++ fq1 ++ heap)[i]? = cur := by
      rw [hg, hc]
      exact ⟨by simp, rfl⟩
    rw [if_pos hguard]
    constructor
    · intro hn1
      rw [if_pos hn1]
    · intro hn1
      rw [if_neg (by omega)]
      have hsh0 : 0 ≤ (if ⌊seed * (n : ℚ)⌋ < (n : ℤ) - 1 then
          ⌊seed * (n : ℚ)⌋ + 1 else ⌊seed * (n : ℚ)⌋ - 1) := by
        split <;> omega
      rw [getCardAtIndex_eq fq2 fq1 heap _ hsh0]
      congr 1
      split <;> split <;> omega

theorem nodupIds_sublist {l₁ l₂ : List Card} (h : List.Sublist l₁ l₂)
    (hn : NodupIds l₂) : NodupIds l₁ :=
  List.Nodup.sublist (List.Sublist.map Card.id h) hn

theorem nodupIds_nodup {l : List Card} (hn : NodupIds l) : l.Nodup :=
  List.Nodup.of_map Card.id hn

theorem nodupIds_eq_of_mem {l : List Card} (hn : NodupIds l) {a b : Card}
    (ha : a ∈ l) (hb : b ∈ l) (h : a.id = b.id) : a = b :=
  List.inj_on_of_nodup_map hn ha hb h

theorem nodupIds_not_mem_erase {l : List Card} (hn : NodupIds l) (a : Card) :
    a ∉ l.erase a := by
  intro hmem
  exact ((List.Nodup.mem_erase_iff (nodupIds_nodup hn)).mp hmem).1 rfl

theorem nodupIds_getElem_ne {l : List Card} (hn : NodupIds l) {i j : ℕ}
    {x y : Card} (hi : l[i]? = some x) (hj : l[j]? = some y) (hij : i ≠ j) :
    x.id ≠ y.id := by
  intro hxy
  have hx : x ∈ l := List.getElem?_mem hi
  have hy : y ∈ l := List.getElem?_mem hj
  have hxyeq : x = y := nodupIds_eq_of_mem hn hx hy hxy
  subst hxyeq
  obtain ⟨hi2, hix⟩ := List.getElem?_eq_some.mp hi
  obtain ⟨hj2, hjx⟩ := List.getElem?_eq_some.mp hj
  exact hij ((List.Nodup.getElem_inj_iff (nodupIds_nodup hn)).mp
    (hix.trans hjx.symm))

theorem findNextCard_mem {fq2 fq1 heap : List Card} {cur : Option Card}
    {seed : ℚ} {p : Card} (h0 : 0 ≤ seed) (h1 : seed < 1)
    (h : findNextCard fq2 fq1 heap cur seed = some p) :
    p ∈ fq2 ++ fq1 ++ heap := by
  by_cases hz : (fq2 ++ fq1 ++ heap).length = 0
  · rw [show findNextCard fq2 fq1 heap cur seed = none by
      unfold findNextCard
      dsimp only
      rw [if_pos (by rw [List.length_append, List.length_append] at hz; omega)]] at h
    exact Option.noConfusion h
  obtain ⟨hilt, hmain, hshift⟩ := findNextCard_spec fq2 fq1 heap cur seed
    (fq2 ++ fq1 ++ heap).length (⌊seed * (((fq2 ++ fq1 ++ heap).length : ℕ) :
      ℚ)⌋).toNat h0 h1 rfl (Nat.pos_of_ne_zero hz) rfl
  obtain ⟨a, ha⟩ := Option.ne_none_iff_exists'.mp
    (fun hnone => by
      rw [List.getElem?_eq_none_iff] at hnone
      omega : (fq2 ++ fq1 ++ heap)[(⌊seed *
        (((fq2 ++ fq1 ++ heap).length : ℕ) : ℚ)⌋).toNat]? ≠ none)
  by_cases hcur : (fq2 ++ fq1 ++ heap)[(⌊seed *
      (((fq2 ++ fq1 ++ heap).length : ℕ) : ℚ)⌋).toNat]? = cur
  · rcases hcur2 : cur with _ | c
    · rw [hcur2] at hcur
      rw [hcur] at ha
      exact Option.noConfusion ha
    · have hspec := hshift c hcur2 (by rw [hcur, hcur2])
      by_cases hone : (fq2 ++ fq1 ++ heap).length = 1
      · rw [hspec.1 hone] at h
        exact Option.noConfusion h
      · rw [hspec.2 (by omega)] at h
        exact List.getElem?_mem h
  · rw [hmain hcur] at h
    exact List.getElem?_mem h

theorem findNextCard_ne_current {fq2 fq1 heap : List Card} {c p : Card}
    {seed : ℚ} (h0 : 0 ≤ seed) (h1 : seed < 1)
    (hN : NodupIds (fq2 ++ fq1 ++ heap))
    (hA : ∀ q ∈ fq2 ++ fq1 ++ heap, q.id = c.id → q = c)
    (h : findNextCard fq2 fq1 heap (some c) seed = some p) :
    p.id ≠ c.id := by
  by_cases hz : (fq2 ++ fq1 ++ heap).length = 0
  · rw [show findNextCard fq2 fq1 heap (some c) seed = none by
      unfold findNextCard
      dsimp only
      rw [if_pos (by rw [List.length_append, List.length_append] at hz; omega)]] at h
    exact Option.noConfusion h
  obtain ⟨hilt, hmain, hshift⟩ := findNextCard_spec fq2 fq1 heap (some c) seed
    (fq2 ++ fq1 ++ heap).length (⌊seed * (((fq2 ++ fq1 ++ heap).length : ℕ) :
      ℚ)⌋).toNat h0 h1 rfl (Nat.pos_of_ne_zero hz) rfl
  by_cases hcur : (fq2 ++ fq1 ++ heap)[(⌊seed *
      (((fq2 ++ fq1 ++ heap).length : ℕ) : ℚ)⌋).toNat]? = some c
  · have hspec := hshift c rfl hcur
    by_cases hone : (fq2 ++ fq1 ++ heap).length = 1
    · rw [hspec.1 hone] at h
      exact Option.noConfusion h
    · rw [hspec.2 (by omega)] at h
      refine nodupIds_getElem_ne hN h hcur ?_
      split
      · omega
      · omega
  · rw [hmain hcur] at h
    intro hpc
    exact hcur (by rw [h, hA p (List.getElem?_mem h) hpc])

theorem findNextCard_none_char {fq2 fq1 heap : List Card}
    {cur : Option Card} {seed : ℚ} (h0 : 0 ≤ seed) (h1 : seed < 1)
    (h : findNextCard fq2 fq1 heap cur seed = none) :
    fq2 ++ fq1 ++ heap = [] ∨
      ∃ c, cur = some c ∧ fq2 ++ fq1 ++ heap = [c] := by
  by_cases hz : (fq2 ++ fq1 ++ heap).length = 0
  · exact Or.inl (List.length_eq_zero.mp hz)
  obtain ⟨hilt, hmain, hshift⟩ := findNextCard_spec fq2 fq1 heap cur seed
    (fq2 ++ fq1 ++ heap).length (⌊seed * (((fq2 ++ fq1 ++ heap).length : ℕ) :
      ℚ)⌋).toNat h0 h1 rfl (Nat.pos_of_ne_zero hz) rfl
  obtain ⟨a, ha⟩ := Option.ne_none_iff_exists'.mp
    (fun hnone => by
      rw [List.getElem?_eq_none_iff] at hnone
      omega : (fq2 ++ fq1 ++ heap)[(⌊seed *
        (((fq2 ++ fq1 ++ heap).length : ℕ) : ℚ)⌋).toNat]? ≠ none)
  by_cases hcur : (fq2 ++ fq1 ++ heap)[(⌊seed *
      (((fq2 ++ fq1 ++ heap).length : ℕ) : ℚ)⌋).toNat]? = cur
  · rcases hcur2 : cur with _ | c
    · rw [hcur2] at hcur
      rw [hcur] at ha
      exact Option.noConfusion ha
    · have hspec := hshift c hcur2 (by rw [hcur, hcur2])
      by_cases hone : (fq2 ++ fq1 ++ heap).length = 1
      · right
        obtain ⟨b, hb⟩ := List.length_eq_one.mp hone
        refine ⟨c, rfl, ?_⟩
        have hi0 : (⌊seed * (((fq2 ++ fq1 ++ heap).length : ℕ) :
            ℚ)⌋).toNat = 0 := by omega
        rw [hcur2] at hcur
        rw [hi0, hb] at hcur
        simp at hcur
        rw [hb, hcur]
      · rw [hspec.2 (by omega)] at h
        rw [List.getElem?_eq_none_iff] at h
        exfalso
        split at h
        · omega
        · omega
  · rw [hmain hcur, ha] at h
    exact Option.noConfusion h

theorem assembleNext_pool (s : ReviewState) (cur1 : Option Card)
    (heap1 : List Card) (ncip1 : ℕ) (next1 : Option Card) :
    poolOf (assembleNext s cur1 heap1 ncip1 next1) =
      s.failedCardsLevel2 ++ s.failedCardsLevel1 ++ heap1 := rfl

theorem assembleNext_history_of_cur_some {s : ReviewState}
    {cur1 : Option Card} {heap1 : List Card} {ncip1 : ℕ}
    {next1 : Option Card} {c : Card}
    (h : (assembleNext s cur1 heap1 ncip1 next1).currentCard = some c) :
    (assembleNext s cur1 heap1 ncip1 next1).history =
      s.history.erase c := by
  unfold assembleNext at h ⊢
  dsimp only at h ⊢
  rw [h]

theorem assembleNext_history_of_cur_none {s : ReviewState}
    {cur1 : Option Card} {heap1 : List Card} {ncip1 : ℕ}
    {next1 : Option Card}
    (h : (assembleNext s cur1 heap1 ncip1 next1).currentCard = none) :
    (assembleNext s cur1 heap1 ncip1 next1).history = s.history := by
  unfold assembleNext at h ⊢
  dsimp only at h ⊢
  rw [h]

theorem updateNextCard_replace_eq (s : ReviewState) (seed : ℚ)
    (h : ¬s.failedCardsLevel2.length + s.failedCardsLevel1.length +
      s.heap.length = 0) :
    updateNextCard s seed .replaceNextCard =
      assembleNext s s.currentCard s.heap s.newCardsInPlay
        (findNextCard s.failedCardsLevel2 s.failedCardsLevel1 s.heap
          s.currentCard seed) := by
  unfold updateNextCard
  dsimp only
  rw [if_neg h]

theorem updateNextCard_update_eq (s : ReviewState) (seed : ℚ)
    (h : ¬s.failedCardsLevel2.length + s.failedCardsLevel1.length +
      s.heap.length = 0) :
    updateNextCard s seed .updateCurrentCard =
      assembleNext s (updateCurrentStage s).1 (updateCurrentStage s).2.1
        (updateCurrentStage s).2.2
        (findNextCard s.failedCardsLevel2 s.failedCardsLevel1
          (updateCurrentStage s).2.1 (updateCurrentStage s).1 seed) := by
  unfold updateNextCard
  dsimp only
  rw [if_neg h]

theorem updateNextCard_zero_complete (s : ReviewState) (seed : ℚ)
    (m : UpdateMode)
    (h : s.failedCardsLevel2.length + s.failedCardsLevel1.length +
      s.heap.length = 0)
    (hm : m = .updateCurrentCard ∨ s.currentCard = none) :
    updateNextCard s seed m =
      { s with phase := .complete, currentCard := none, nextCard := none } := by
  unfold updateNextCard
  dsimp only
  rw [if_pos h, if_pos hm]

theorem updateNextCard_zero_keep (s : ReviewState) (seed : ℚ)
    (h : s.failedCardsLevel2.length + s.failedCardsLevel1.length +
      s.heap.length = 0)
    (hc : s.currentCard ≠ none) :
    updateNextCard s seed .replaceNextCard = { s with nextCard := none } := by
  unfold updateNextCard
  dsimp only
  rw [if_pos h, if_neg]
  rintro (hm | hm)
  · exact UpdateMode.noConfusion hm
  · exact hc hm

theorem updateCurrentStage_fst (s : ReviewState) :
    (updateCurrentStage s).1 = s.nextCard := by
  unfold updateCurrentStage
  cases s.nextCard with
  | none => rfl
  | some c =>
    dsimp only
    split <;> rfl

theorem updateCurrentStage_heap_sublist (s : ReviewState) :
    List.Sublist (updateCurrentStage s).2.1 s.heap := by
  unfold updateCurrentStage
  cases s.nextCard with
  | none => exact List.Sublist.refl _
  | some c =>
    dsimp only
    split
    · exact List.erase_sublist c s.heap
    · exact List.Sublist.refl _

theorem pool_empty_parts {s : ReviewState}
    (h : s.failedCardsLevel2.length + s.failedCardsLevel1.length +
      s.heap.length = 0) :
    poolOf s = [] := by
  have h2 : s.failedCardsLevel2 = [] := List.length_eq_zero.mp (by omega)
  have h1 : s.failedCardsLevel1 = [] := List.length_eq_zero.mp (by omega)
  have hh : s.heap = [] := List.length_eq_zero.mp (by omega)
  simp [poolOf, h2, h1, hh]

theorem updateNextCard_replace_inv (s : ReviewState) (seed : ℚ)
    (h0 : 0 ≤ seed) (h1 : seed < 1)
    (histNodup : NodupIds s.history)
    (curHist : ∀ c ∈ s.currentCard, ∀ h ∈ s.history, h.id ≠ c.id)
    (poolHist : ∀ p ∈ poolOf s, ∀ h ∈ s.history, h.id = p.id → h = p)
    (poolNodup : NodupIds (poolOf s))
    (curHeap : ∀ c ∈ s.currentCard, ∀ p ∈ s.heap, p.id ≠ c.id)
    (curFq : ∀ c ∈ s.currentCard,
      ∀ p ∈ s.failedCardsLevel2 ++ s.failedCardsLevel1,
        p.id = c.id → p = c) :
    SelInv (updateNextCard s seed .replaceNextCard) := by
  have hAgreePool : ∀ c ∈ s.currentCard, ∀ q ∈ poolOf s,
      q.id = c.id → q = c := by
    intro c hc q hq hid
    rcases List.mem_append.mp hq with hq2 | hq2
    · exact curFq c hc q hq2 hid
    · exact absurd hid (curHeap c hc q hq2)
  by_cases hz : s.failedCardsLevel2.length + s.failedCardsLevel1.length +
      s.heap.length = 0
  · have hempty : poolOf s = [] := pool_empty_parts hz
    by_cases hcn : s.currentCard = none
    · rw [updateNextCard_zero_complete s seed _ hz (Or.inr hcn)]
      refine ⟨histNodup, ?_, ?_, poolHist, poolNodup, ?_, ?_, ?_, ?_,
        fun _ => Or.inl hempty⟩ <;>
        · intro c hc
          simp at hc
    · rw [updateNextCard_zero_keep s seed hz hcn]
      refine ⟨histNodup, curHist, ?_, poolHist, poolNodup, curHeap, curFq,
        ?_, ?_, fun _ => Or.inl hempty⟩
      · intro n hn
        simp at hn
      · intro c hc n hn
        simp at hn
      · intro n hn
        simp at hn
  · rw [updateNextCard_replace_eq s seed hz]
    obtain ⟨hcur, hnext⟩ := @assembleNext_not_promoted s s.currentCard
      s.heap s.newCardsInPlay
      (findNextCard s.failedCardsLevel2 s.failedCardsLevel1 s.heap
        s.currentCard seed)
      (by rintro ⟨ha, hb, -⟩; exact hb ha)
    obtain ⟨hf2, hf1, -, -, hhp⟩ := assembleNext_frame s s.currentCard
      s.heap s.newCardsInPlay
      (findNextCard s.failedCardsLevel2 s.failedCardsLevel1 s.heap
        s.currentCard seed)
    have hpool := assembleNext_pool s s.currentCard s.heap s.newCardsInPlay
      (findNextCard s.failedCardsLevel2 s.failedCardsLevel1 s.heap
        s.currentCard seed)
    by_cases hcn : s.currentCard = none
    · have hc := hcn
      have hhist : (assembleNext s s.currentCard s.heap s.newCardsInPlay
          (findNextCard s.failedCardsLevel2 s.failedCardsLevel1 s.heap
            s.currentCard seed)).history = s.history :=
        assembleNext_history_of_cur_none (by rw [hcur, hc])
      refine ⟨?_, ?_, ?_, ?_, ?_, ?_, ?_, ?_, ?_, ?_⟩
      · rw [hhist]
        exact histNodup
      · rw [hcur, hc]
        intro x hx
        simp at hx
      · rw [hnext, hhist]
        intro n hn h hh hid
        exact poolHist n (findNextCard_mem h0 h1 (Option.mem_def.mp hn))
          h hh hid
      · rw [hpool, hhist]
        exact poolHist
      · rw [hpool]
        exact poolNodup
      · rw [hcur, hc]
        intro x hx
        simp at hx
      · rw [hcur, hc]
        intro x hx
        simp at hx
      · rw [hcur, hc]
        intro x hx
        simp at hx
      · rw [hnext, hpool]
        intro n hn q hq hid
        exact nodupIds_eq_of_mem poolNodup hq
          (findNextCard_mem h0 h1 (Option.mem_def.mp hn)) hid
      · rw [hnext, hpool]
        intro hnone
        rcases findNextCard_none_char h0 h1 hnone with hemp | ⟨x, hx, -⟩
        · exact Or.inl hemp
        · rw [hc] at hx
          exact Option.noConfusion hx
    · obtain ⟨c, hc⟩ := Option.ne_none_iff_exists'.mp hcn
      have hcnotin : c ∉ s.history := fun hmem =>
        curHist c (Option.mem_def.mpr hc) c hmem rfl
      have hhist : (assembleNext s s.currentCard s.heap s.newCardsInPlay
          (findNextCard s.failedCardsLevel2 s.failedCardsLevel1 s.heap
            s.currentCard seed)).history = s.history := by
        rw [assembleNext_history_of_cur_some (by rw [hcur, hc]),
          List.erase_of_not_mem hcnotin]
      refine ⟨?_, ?_, ?_, ?_, ?_, ?_, ?_, ?_, ?_, ?_⟩
      · rw [hhist]
        exact histNodup
      · rw [hcur, hhist, hc]
        intro x hx
        rw [Option.mem_some_iff] at hx
        subst hx
        exact curHist c (Option.mem_def.mpr hc)
      · rw [hnext, hhist]
        intro n hn h hh hid
        exact poolHist n (findNextCard_mem h0 h1 (Option.mem_def.mp hn))
          h hh hid
      · rw [hpool, hhist]
        exact poolHist
      · rw [hpool]
        exact poolNodup
      · rw [hcur, hhp, hc]
        intro x hx
        rw [Option.mem_some_iff] at hx
        subst hx
        exact curHeap c (Option.mem_def.mpr hc)
      · rw [hcur, hf2, hf1, hc]
        intro x hx
        rw [Option.mem_some_iff] at hx
        subst hx
        exact curFq c (Option.mem_def.mpr hc)
      · rw [hcur, hnext, hc]
        intro x hx n hn
        rw [Option.mem_some_iff] at hx
        subst hx
        exact findNextCard_ne_current h0 h1 poolNodup
          (fun q hq hid => hAgreePool c (Option.mem_def.mpr hc) q hq hid)
          (Option.mem_def.mp hn)
      · rw [hnext, hpool]
        intro n hn q hq hid
        exact nodupIds_eq_of_mem poolNodup hq
          (findNextCard_mem h0 h1 (Option.mem_def.mp hn)) hid
      · rw [hnext, hcur, hpool, hc]
        intro hnone
        rcases findNextCard_none_char h0 h1 hnone with hemp | ⟨x, hx, hsing⟩
        · exact Or.inl hemp
        · right
          refine ⟨c, Option.mem_def.mpr rfl, ?_⟩
          rw [hsing, Option.some.inj hx]

theorem updateCurrentStage_none {s : ReviewState}
    (hn : s.nextCard = none) :
    updateCurrentStage s = (none, s.heap, s.newCardsInPlay) := by
  unfold updateCurrentStage
  rw [hn]

theorem updateCurrentStage_heap_eq {s : ReviewState} {c : Card}
    (hn : s.nextCard = some c) :
    (updateCurrentStage s).2.1 =
      if c ∈ s.heap then s.heap.erase c else s.heap := by
  unfold updateCurrentStage
  rw [hn]
  dsimp only
  by_cases hch : c ∈ s.heap
  · rw [if_pos hch, if_pos hch]
  · rw [if_neg hch, if_neg hch]

theorem updateNextCard_update_inv (s : ReviewState) (seed : ℚ)
    (h0 : 0 ≤ seed) (h1 : seed < 1)
    (histNodup : NodupIds s.history)
    (nextHist : ∀ n ∈ s.nextCard, ∀ h ∈ s.history, h.id = n.id → h = n)
    (poolHist : ∀ p ∈ poolOf s, ∀ h ∈ s.history, h.id = p.id → h = p)
    (poolNodup : NodupIds (poolOf s))
    (nextPool : ∀ n ∈ s.nextCard, ∀ p ∈ poolOf s, p.id = n.id → p = n)
    (pcond : s.currentCard ≠ none → s.nextCard = none →
      poolOf s = [] ∨ (s.heap = [] ∧
        ∃ u, s.failedCardsLevel2 ++ s.failedCardsLevel1 = [u])) :
    SelInv (updateNextCard s seed .updateCurrentCard) := by
  by_cases hz : s.failedCardsLevel2.length + s.failedCardsLevel1.length +
      s.heap.length = 0
  · have hempty : poolOf s = [] := pool_empty_parts hz
    rw [updateNextCard_zero_complete s seed _ hz (Or.inl rfl)]
    refine ⟨histNodup, ?_, ?_, poolHist, poolNodup, ?_, ?_, ?_, ?_,
      fun _ => Or.inl hempty⟩ <;>
      · intro c hc
        simp at hc
  · rw [updateNextCard_update_eq s seed hz]
    rcases hn2 : s.nextCard with _ | c
    · -- no next card to promote: the stage is the identity
      rw [updateCurrentStage_none hn2]
      dsimp only
      by_cases hcn : s.currentCard = none
      · obtain ⟨hcur, hnext⟩ := @assembleNext_not_promoted s none s.heap
          s.newCardsInPlay
          (findNextCard s.failedCardsLevel2 s.failedCardsLevel1 s.heap
            none seed)
          (by rintro ⟨-, hb, -⟩; exact hb hcn)
        obtain ⟨hf2, hf1, -, -, hhp⟩ := assembleNext_frame s none s.heap
          s.newCardsInPlay (findNextCard s.failedCardsLevel2
            s.failedCardsLevel1 s.heap none seed)
        have hpool := assembleNext_pool s none s.heap s.newCardsInPlay
          (findNextCard s.failedCardsLevel2 s.failedCardsLevel1 s.heap
            none seed)
        have hhist : (assembleNext s none s.heap s.newCardsInPlay
            (findNextCard s.failedCardsLevel2 s.failedCardsLevel1 s.heap
              none seed)).history = s.history :=
          assembleNext_history_of_cur_none (by rw [hcur])
        refine ⟨?_, ?_, ?_, ?_, ?_, ?_, ?_, ?_, ?_, ?_⟩
        · rw [hhist]
          exact histNodup
        · rw [hcur]
          intro x hx
          simp at hx
        · rw [hnext, hhist]
          intro n hnn h hh hid
          exact poolHist n (findNextCard_mem h0 h1 (Option.mem_def.mp hnn))
            h hh hid
        · rw [hpool, hhist]
          exact poolHist
        · rw [hpool]
          exact poolNodup
        · rw [hcur]
          intro x hx
          simp at hx
        · rw [hcur]
          intro x hx
          simp at hx
        · rw [hcur]
          intro x hx
          simp at hx
        · rw [hnext, hpool]
          intro n hnn q hq hid
          exact nodupIds_eq_of_mem poolNodup hq
            (findNextCard_mem h0 h1 (Option.mem_def.mp hnn)) hid
        · rw [hnext, hpool]
          intro hnone
          rcases findNextCard_none_char h0 h1 hnone with hemp | ⟨x, hx, -⟩
          · exact Or.inl hemp
          · exact Option.noConfusion hx
      · -- a live current card with no next card: the pool is the lone
        -- failed card, which gets promoted
        rcases pcond hcn hn2 with hemp | ⟨hheapnil, u, hu⟩
        · exact absurd (by rw [← poolOf_length s, hemp]; rfl) hz
        have hpoollist : s.failedCardsLevel2 ++ s.failedCardsLevel1 ++
            s.heap = [u] := by
          rw [hheapnil, List.append_nil]
          exact hu
        obtain ⟨hilt, hmain, -⟩ := findNextCard_spec s.failedCardsLevel2
          s.failedCardsLevel1 s.heap none seed 1
          (⌊seed * ((1 : ℕ) : ℚ)⌋).toNat h0 h1
          (by rw [hpoollist]; rfl) one_pos rfl
        have h00 : (s.failedCardsLevel2 ++ s.failedCardsLevel1 ++
            s.heap)[(⌊seed * ((1 : ℕ) : ℚ)⌋).toNat]? = some u := by
          have hi0 : (⌊seed * ((1 : ℕ) : ℚ)⌋).toNat = 0 := by omega
          rw [hi0, hpoollist]
          rfl
        have hfind : findNextCard s.failedCardsLevel2 s.failedCardsLevel1
            s.heap none seed = some u := by
          rw [hmain (by rw [h00]; simp)]
          exact h00
        obtain ⟨c0, hc⟩ := Option.ne_none_iff_exists'.mp hcn
        obtain ⟨hcur, hnext⟩ := @assembleNext_promoted s none s.heap
          s.newCardsInPlay
          (findNextCard s.failedCardsLevel2 s.failedCardsLevel1 s.heap
            none seed)
          ⟨rfl, by rw [hc]; simp, by rw [hfind]; simp⟩
        obtain ⟨hf2, hf1, -, -, hhp⟩ := assembleNext_frame s none s.heap
          s.newCardsInPlay (findNextCard s.failedCardsLevel2
            s.failedCardsLevel1 s.heap none seed)
        have hpool := assembleNext_pool s none s.heap s.newCardsInPlay
          (findNextCard s.failedCardsLevel2 s.failedCardsLevel1 s.heap
            none seed)
        have hcur2 : (assembleNext s none s.heap s.newCardsInPlay
            (findNextCard s.failedCardsLevel2 s.failedCardsLevel1 s.heap
              none seed)).currentCard = some u := by
          rw [hcur, hfind]
        have hhist : (assembleNext s none s.heap s.newCardsInPlay
            (findNextCard s.failedCardsLevel2 s.failedCardsLevel1 s.heap
              none seed)).history = s.history.erase u :=
          assembleNext_history_of_cur_some hcur2
        have humem : u ∈ poolOf s := List.mem_append.mpr (Or.inl
          (by rw [hu]; exact List.mem_singleton_self u))
        refine ⟨?_, ?_, ?_, ?_, ?_, ?_, ?_, ?_, ?_, ?_⟩
        · rw [hhist]
          exact nodupIds_sublist (List.erase_sublist u s.history) histNodup
        · rw [hcur2, hhist]
          intro x hx h hh hid
          rw [Option.mem_some_iff] at hx
          subst hx
          have hh2 : h ∈ s.history := (List.erase_sublist u
            s.history).subset hh
          have hhu := poolHist u humem h hh2 hid
          subst hhu
          exact nodupIds_not_mem_erase histNodup h hh
        · rw [hnext]
          intro n hnn
          simp at hnn
        · rw [hpool, hhist]
          intro p hp h hh hid
          exact poolHist p hp h ((List.erase_sublist u s.history).subset hh)
            hid
        · rw [hpool]
          exact poolNodup
        · rw [hcur2, hhp, hheapnil]
          intro x hx p hp
          simp at hp
        · rw [hcur2, hf2, hf1, hu]
          intro x hx p hp hid
          rw [Option.mem_some_iff] at hx
          rw [List.mem_singleton] at hp
          exact hp.trans hx
        · rw [hnext]
          intro x hx n hnn
          simp at hnn
        · rw [hnext]
          intro n hnn
          simp at hnn
        · rw [hcur2, hpool]
          intro _
          right
          exact ⟨u, Option.mem_def.mpr rfl, hpoollist⟩
    · -- the next card becomes current; it leaves the heap if it sat there
      have hucf := updateCurrentStage_fst s
      rw [hn2] at hucf
      obtain ⟨hcur, hnext⟩ := @assembleNext_not_promoted s
        (updateCurrentStage s).1 (updateCurrentStage s).2.1
        (updateCurrentStage s).2.2
        (findNextCard s.failedCardsLevel2 s.failedCardsLevel1
          (updateCurrentStage s).2.1 (updateCurrentStage s).1 seed)
        (by rintro ⟨ha, -, -⟩; rw [hucf] at ha; exact Option.noConfusion ha)
      obtain ⟨hf2, hf1, -, -, hhp⟩ := assembleNext_frame s
        (updateCurrentStage s).1 (updateCurrentStage s).2.1
        (updateCurrentStage s).2.2
        (findNextCard s.failedCardsLevel2 s.failedCardsLevel1
          (updateCurrentStage s).2.1 (updateCurrentStage s).1 seed)
      have hpool := assembleNext_pool s (updateCurrentStage s).1
        (updateCurrentStage s).2.1 (updateCurrentStage s).2.2
        (findNextCard s.failedCardsLevel2 s.failedCardsLevel1
          (updateCurrentStage s).2.1 (updateCurrentStage s).1 seed)
      have hcur2 := hcur.trans hucf
      have hhist := assembleNext_history_of_cur_some hcur2
      have hsubpool : List.Sublist (s.failedCardsLevel2 ++
          s.failedCardsLevel1 ++ (updateCurrentStage s).2.1) (poolOf s) :=
        List.Sublist.append_left (updateCurrentStage_heap_sublist s) _
      have hpool1Nodup : NodupIds (s.failedCardsLevel2 ++
          s.failedCardsLevel1 ++ (updateCurrentStage s).2.1) :=
        nodupIds_sublist hsubpool poolNodup
      have hcmem : c ∈ s.nextCard := Option.mem_def.mpr hn2
      have hAgree : ∀ q ∈ s.failedCardsLevel2 ++ s.failedCardsLevel1 ++
          (updateCurrentStage s).2.1, q.id = c.id → q = c :=
        fun q hq hid => nextPool c hcmem q (hsubpool.subset hq) hid
      have hfind2 : (assembleNext s (updateCurrentStage s).1
          (updateCurrentStage s).2.1 (updateCurrentStage s).2.2
          (findNextCard s.failedCardsLevel2 s.failedCardsLevel1
            (updateCurrentStage s).2.1 (updateCurrentStage s).1
            seed)).nextCard =
          findNextCard s.failedCardsLevel2 s.failedCardsLevel1
            (updateCurrentStage s).2.1 (some c) seed := by
        rw [hnext, hucf]
      have hU21 : ∀ p ∈ (updateCurrentStage s).2.1, p.id ≠ c.id := by
        intro p hp hid
        have hppool : p ∈ poolOf s := List.mem_append.mpr
          (Or.inr ((updateCurrentStage_heap_sublist s).subset hp))
        have hpc : p = c := nextPool c hcmem p hppool hid
        subst hpc
        rw [updateCurrentStage_heap_eq hn2] at hp
        by_cases hch : p ∈ s.heap
        · rw [if_pos hch] at hp
          exact nodupIds_not_mem_erase (nodupIds_sublist
            (List.sublist_append_right _ _) poolNodup) p hp
        · rw [if_neg hch] at hp
          exact hch hp
      have hcnotin2 : ∀ h ∈ s.history.erase c, h.id ≠ c.id := by
        intro h hh hid
        have hh2 : h ∈ s.history := (List.erase_sublist c
          s.history).subset hh
        have := nextHist c hcmem h hh2 hid
        subst this
        exact nodupIds_not_mem_erase histNodup h hh
      refine ⟨?_, ?_, ?_, ?_, ?_, ?_, ?_, ?_, ?_, ?_⟩
      · rw [hhist]
        exact nodupIds_sublist (List.erase_sublist c s.history) histNodup
      · rw [hcur2, hhist]
        intro x hx h hh hid
        rw [Option.mem_some_iff] at hx
        subst hx
        exact hcnotin2 h hh hid
      · rw [hfind2, hhist]
        intro n hnn h hh hid
        have hnmem : n ∈ s.failedCardsLevel2 ++ s.failedCardsLevel1 ++
            (updateCurrentStage s).2.1 :=
          findNextCard_mem h0 h1 (Option.mem_def.mp hnn)
        exact poolHist n (hsubpool.subset hnmem) h
          ((List.erase_sublist c s.history).subset hh) hid
      · rw [hpool, hhist]
        intro p hp h hh hid
        exact poolHist p (hsubpool.subset hp) h
          ((List.erase_sublist c s.history).subset hh) hid
      · rw [hpool]
        exact hpool1Nodup
      · rw [hcur2, hhp]
        intro x hx p hp
        rw [Option.mem_some_iff] at hx
        subst hx
        intro hid
        exact hU21 p hp hid
      · rw [hcur2, hf2, hf1]
        intro x hx p hp hid
        rw [Option.mem_some_iff] at hx
        subst hx
        exact nextPool c hcmem p
          (List.mem_append.mpr (Or.inl hp)) hid
      · rw [hcur2, hfind2]
        intro x hx n hnn
        rw [Option.mem_some_iff] at hx
        subst hx
        exact findNextCard_ne_current h0 h1 hpool1Nodup hAgree
          (Option.mem_def.mp hnn)
      · rw [hfind2, hpool]
        intro n hnn q hq hid
        exact nodupIds_eq_of_mem hpool1Nodup hq
          (findNextCard_mem h0 h1 (Option.mem_def.mp hnn)) hid
      · rw [hfind2, hcur2, hpool]
        intro hnone
        rcases findNextCard_none_char h0 h1 hnone with hemp | ⟨x, hx, hsing⟩
        · exact Or.inl hemp
        · right
          refine ⟨c, Option.mem_def.mpr rfl, ?_⟩
          rw [hsing, Option.some.inj hx]

theorem selInv_toSessionInv {s : ReviewState} (h : SelInv s) :
    SessionInv s :=
  ⟨h.histNodup, h.curHist, h.nextHist, h.poolHist, h.poolNodup, h.curHeap,
    h.curFq, h.curNext, h.nextPool, fun _ => h.nonePool⟩

theorem sessionInv_congr (s t : ReviewState)
    (hheap : t.heap = s.heap)
    (hfq1 : t.failedCardsLevel1 = s.failedCardsLevel1)
    (hfq2 : t.failedCardsLevel2 = s.failedCardsLevel2)
    (hhist : t.history = s.history) (hcur : t.currentCard = s.currentCard)
    (hnext : t.nextCard = s.nextCard)
    (hphase : t.phase = .question ∨ t.phase = .answer →
      s.phase = .question ∨ s.phase = .answer)
    (inv : SessionInv s) : SessionInv t := by
  have hpool : poolOf t = poolOf s := by
    rw [poolOf, poolOf, hheap, hfq1, hfq2]
  refine ⟨?_, ?_, ?_, ?_, ?_, ?_, ?_, ?_, ?_, ?_⟩
  · rw [hhist]
    exact inv.histNodup
  · rw [hcur, hhist]
    exact inv.curHist
  · rw [hnext, hhist]
    exact inv.nextHist
  · rw [hpool, hhist]
    exact inv.poolHist
  · rw [hpool]
    exact inv.poolNodup
  · rw [hcur, hheap]
    exact inv.curHeap
  · rw [hcur, hfq2, hfq1]
    exact inv.curFq
  · rw [hcur, hnext]
    exact inv.curNext
  · rw [hnext, hpool]
    exact inv.nextPool
  · rw [hnext, hpool, hcur]
    intro hph hnone
    exact inv.nonePool (hphase hph) hnone

theorem selInv_congr (s t : ReviewState)
    (hheap : t.heap = s.heap)
    (hfq1 : t.failedCardsLevel1 = s.failedCardsLevel1)
    (hfq2 : t.failedCardsLevel2 = s.failedCardsLevel2)
    (hhist : t.history = s.history) (hcur : t.currentCard = s.currentCard)
    (hnext : t.nextCard = s.nextCard)
    (inv : SelInv s) : SelInv t := by
  have hpool : poolOf t = poolOf s := by
    rw [poolOf, poolOf, hheap, hfq1, hfq2]
  refine ⟨?_, ?_, ?_, ?_, ?_, ?_, ?_, ?_, ?_, ?_⟩
  · rw [hhist]
    exact inv.histNodup
  · rw [hcur, hhist]
    exact inv.curHist
  · rw [hnext, hhist]
    exact inv.nextHist
  · rw [hpool, hhist]
    exact inv.poolHist
  · rw [hpool]
    exact inv.poolNodup
  · rw [hcur, hheap]
    exact inv.curHeap
  · rw [hcur, hfq2, hfq1]
    exact inv.curFq
  · rw [hcur, hnext]
    exact inv.curNext
  · rw [hnext, hpool]
    exact inv.nextPool
  · rw [hnext, hpool, hcur]
    exact inv.nonePool

theorem sessionInv_of_empty {t : ReviewState} (hheap : t.heap = [])
    (hfq1 : t.failedCardsLevel1 = []) (hfq2 : t.failedCardsLevel2 = [])
    (hhist : t.history = []) (hcur : t.currentCard = none)
    (hnext : t.nextCard = none) : SessionInv t := by
  have hpool : poolOf t = [] := by
    rw [poolOf, hheap, hfq1, hfq2]
    rfl
  refine ⟨?_, ?_, ?_, ?_, ?_, ?_, ?_, ?_, ?_,
    fun _ _ => Or.inl hpool⟩
  · rw [hhist]
    exact List.nodup_nil
  · rw [hcur]
    intro c hc
    simp at hc
  · rw [hnext]
    intro n hn
    simp at hn
  · rw [hpool]
    intro p hp
    simp at hp
  · rw [hpool]
    exact List.nodup_nil
  · rw [hcur]
    intro c hc
    simp at hc
  · rw [hcur]
    intro c hc
    simp at hc
  · rw [hcur]
    intro c hc
    simp at hc
  · rw [hnext]
    intro n hn
    simp at hn

theorem nodupIds_append_singleton {l : List Card} {c : Card}
    (hn : NodupIds l) (hd : ∀ h ∈ l, h.id ≠ c.id) :
    NodupIds (l ++ [c]) := by
  rw [NodupIds, List.map_append, List.nodup_append]
  refine ⟨hn, by simp, ?_⟩
  intro a ha hb
  simp only [List.map_cons, List.map_nil, List.mem_singleton] at hb
  obtain ⟨x, hx, hxa⟩ := List.mem_map.mp ha
  exact hd x hx (by rw [hxa, hb])

theorem nodup_insert_mid {A B C : List String} {x : String}
    (h : (A ++ B ++ C).Nodup) (hx : x ∉ A ++ B ++ C) :
    (A ++ (B ++ [x]) ++ C).Nodup := by
  have h1 : A ++ (B ++ [x]) ++ C = (A ++ B) ++ x :: C := by
    simp [List.append_assoc]
  have hperm : List.Perm ((A ++ B) ++ x :: C) (x :: (A ++ B ++ C)) :=
    List.perm_middle
  rw [h1]
  exact hperm.nodup_iff.mpr (List.nodup_cons.mpr ⟨hx, h⟩)

theorem nodup_insert_fst {A B C : List String} {x : String}
    (h : (A ++ B ++ C).Nodup) (hx : x ∉ A ++ B ++ C) :
    ((A ++ [x]) ++ B ++ C).Nodup := by
  rw [List.append_assoc] at h hx
  have h1 : (A ++ [x]) ++ B ++ C = A ++ x :: (B ++ C) := by
    simp [List.append_assoc]
  have hperm : List.Perm (A ++ x :: (B ++ C)) (x :: (A ++ (B ++ C))) :=
    List.perm_middle
  rw [h1]
  exact hperm.nodup_iff.mpr (List.nodup_cons.mpr ⟨hx, h⟩)

theorem append3_eq_singleton {A B C : List Card} {x : Card}
    (h : A ++ B ++ C = [x]) :
    (A = [x] ∧ B = [] ∧ C = []) ∨ (A = [] ∧ B = [x] ∧ C = []) ∨
      (A = [] ∧ B = [] ∧ C = [x]) := by
  rcases A with _ | ⟨a, A2⟩
  · rcases B with _ | ⟨b, B2⟩
    · right
      right
      simpa using h
    · right
      left
      simp only [List.nil_append, List.cons_append, List.cons.injEq] at h
      obtain ⟨hbx, h2⟩ := h
      obtain ⟨hB2, hC⟩ := List.append_eq_nil.mp h2
      exact ⟨rfl, by rw [hbx, hB2], hC⟩
  · left
    simp only [List.cons_append, List.cons.injEq] at h
    obtain ⟨hax, h2⟩ := h
    obtain ⟨h3, hC⟩ := List.append_eq_nil.mp h2
    obtain ⟨hA2, hB⟩ := List.append_eq_nil.mp h3
    exact ⟨by rw [hax, hA2], hB, hC⟩

theorem curAgreePool {s : ReviewState} {pc : Card} (inv : SessionInv s)
    (hc : s.currentCard = some pc) :
    ∀ q ∈ poolOf s, q.id = pc.id → q = pc := by
  intro q hq hid
  rcases List.mem_append.mp hq with hq2 | hq2
  · exact inv.curFq pc (Option.mem_def.mpr hc) q hq2 hid
  · exact absurd hid (inv.curHeap pc (Option.mem_def.mpr hc) q hq2)

theorem intermediate_inv (s t : ReviewState) (pc uc : Card)
    (B2 B1 : List Card) (seed : ℚ)
    (h0 : 0 ≤ seed) (h1 : seed < 1)
    (inv : SessionInv s) (hc : s.currentCard = some pc)
    (ht_heap : t.heap = s.heap)
    (ht_hist : t.history = s.history ++ [uc])
    (ht_next : t.nextCard = s.nextCard)
    (ht_f2 : t.failedCardsLevel2 = B2)
    (ht_f1 : t.failedCardsLevel1 = B1)
    (hucid : uc.id = pc.id)
    (hbase0 : ∀ q ∈ B2 ++ B1,
      q = uc ∨ (q ∈ s.failedCardsLevel2 ++ s.failedCardsLevel1 ∧
        q.id ≠ pc.id))
    (hpn0 : NodupIds (B2 ++ B1 ++ s.heap))
    (hsingle0 : s.nextCard = none →
      B2 ++ B1 ++ s.heap = [] ∨ (s.heap = [] ∧ ∃ v, B2 ++ B1 = [v])) :
    SelInv (updateNextCard t seed .updateCurrentCard) := by
  have hbase : ∀ q ∈ t.failedCardsLevel2 ++ t.failedCardsLevel1,
      q = uc ∨ (q ∈ s.failedCardsLevel2 ++ s.failedCardsLevel1 ∧
        q.id ≠ pc.id) := by
    rw [ht_f2, ht_f1]
    exact hbase0
  have hpn : NodupIds (poolOf t) := by
    rw [poolOf, ht_f2, ht_f1, ht_heap]
    exact hpn0
  have hsingle : s.nextCard = none →
      poolOf t = [] ∨ (t.heap = [] ∧
        ∃ v, t.failedCardsLevel2 ++ t.failedCardsLevel1 = [v]) := by
    rw [poolOf, ht_f2, ht_f1, ht_heap]
    exact hsingle0
  have hpcmem : pc ∈ s.currentCard := Option.mem_def.mpr hc
  have hpmem : ∀ q ∈ poolOf t, q = uc ∨ (q ∈ poolOf s ∧ q.id ≠ pc.id) := by
    intro q hq
    rcases List.mem_append.mp hq with hq2 | hq2
    · rcases hbase q hq2 with h | ⟨h, hne⟩
      · exact Or.inl h
      · exact Or.inr ⟨List.mem_append.mpr (Or.inl h), hne⟩
    · rw [ht_heap] at hq2
      exact Or.inr ⟨List.mem_append.mpr (Or.inr hq2),
        inv.curHeap pc hpcmem q hq2⟩
  apply updateNextCard_update_inv t seed h0 h1
  · rw [ht_hist]
    exact nodupIds_append_singleton inv.histNodup
      (fun h hh => by rw [hucid]; exact inv.curHist pc hpcmem h hh)
  · rw [ht_next, ht_hist]
    intro n hn h hh hid
    rcases List.mem_append.mp hh with hh2 | hh2
    · exact inv.nextHist n hn h hh2 hid
    · rw [List.mem_singleton] at hh2
      rw [hh2] at hid ⊢
      exact absurd (hid.symm.trans hucid).symm
        (Ne.symm (inv.curNext pc hpcmem n hn))
  · rw [ht_hist]
    intro p hp h hh hid
    rcases hpmem p hp with hpu | ⟨hps, hpne⟩
    · rcases List.mem_append.mp hh with hh2 | hh2
      · rw [hpu] at hid
        exact absurd (hid.trans hucid) (inv.curHist pc hpcmem h hh2)
      · rw [List.mem_singleton] at hh2
        exact hh2.trans hpu.symm
    · rcases List.mem_append.mp hh with hh2 | hh2
      · exact inv.poolHist p hps h hh2 hid
      · rw [List.mem_singleton] at hh2
        rw [hh2] at hid
        exact absurd (hid.symm.trans hucid) hpne
  · exact hpn
  · rw [ht_next]
    intro n hn p hp hid
    rcases hpmem p hp with hpu | ⟨hps, hpne⟩
    · rw [hpu] at hid
      exact absurd (hid.symm.trans hucid) (inv.curNext pc hpcmem n hn)
    · exact inv.nextPool n hn p hps hid
  · intro hcne hnone
    rw [ht_next] at hnone
    exact hsingle hnone

theorem nodupIds_append_disjoint {l₁ l₂ : List Card}
    (h : NodupIds (l₁ ++ l₂)) {a b : Card} (ha : a ∈ l₁) (hb : b ∈ l₂) :
    a.id ≠ b.id := by
  rw [NodupIds, List.map_append, List.nodup_append] at h
  intro heq
  exact h.2.2 (List.mem_map_of_mem Card.id ha)
    (heq ▸ List.mem_map_of_mem Card.id hb)

theorem base_clean {s : ReviewState} {pc : Card} (inv : SessionInv s)
    (hc : s.currentCard = some pc) {B2 B1 : List Card}
    (hB2 : List.Sublist B2 s.failedCardsLevel2)
    (hB1 : List.Sublist B1 s.failedCardsLevel1)
    (hpc2 : pc ∉ B2) (hpc1 : pc ∉ B1) :
    ∀ q ∈ B2 ++ B1 ++ s.heap, q.id ≠ pc.id := by
  intro q hq hid
  rcases List.mem_append.mp hq with hq2 | hq3
  · rcases List.mem_append.mp hq2 with hqa | hqb
    · have hqpool : q ∈ poolOf s := List.mem_append.mpr
        (Or.inl (List.mem_append.mpr (Or.inl (hB2.subset hqa))))
      have hqpc := curAgreePool inv hc q hqpool hid
      exact hpc2 (hqpc ▸ hqa)
    · have hqpool : q ∈ poolOf s := List.mem_append.mpr
        (Or.inl (List.mem_append.mpr (Or.inr (hB1.subset hqb))))
      have hqpc := curAgreePool inv hc q hqpool hid
      exact hpc1 (hqpc ▸ hqb)
  · exact inv.curHeap pc (Option.mem_def.mpr hc) q hq3 hid

theorem nodupIds_insert_mid {B2 B1 H : List Card} {u : Card}
    (h : NodupIds (B2 ++ B1 ++ H))
    (hu : ∀ q ∈ B2 ++ B1 ++ H, q.id ≠ u.id) :
    NodupIds (B2 ++ (B1 ++ [u]) ++ H) := by
  have hmap : ((B2.map Card.id) ++ (B1.map Card.id) ++
      (H.map Card.id)).Nodup := by
    simpa [NodupIds, List.map_append] using h
  have hx : u.id ∉ B2.map Card.id ++ B1.map Card.id ++ H.map Card.id := by
    intro hmem
    have h2 : u.id ∈ (B2 ++ B1 ++ H).map Card.id := by
      simpa [List.map_append] using hmem
    obtain ⟨q, hq, hqid⟩ := List.mem_map.mp h2
    exact hu q hq hqid
  have h3 := nodup_insert_mid hmap hx
  simpa [NodupIds, List.map_append] using h3

theorem nodupIds_insert_fst {B2 B1 H : List Card} {u : Card}
    (h : NodupIds (B2 ++ B1 ++ H))
    (hu : ∀ q ∈ B2 ++ B1 ++ H, q.id ≠ u.id) :
    NodupIds ((B2 ++ [u]) ++ B1 ++ H) := by
  have hmap : ((B2.map Card.id) ++ (B1.map Card.id) ++
      (H.map Card.id)).Nodup := by
    simpa [NodupIds, List.map_append] using h
  have hx : u.id ∉ B2.map Card.id ++ B1.map Card.id ++ H.map Card.id := by
    intro hmem
    have h2 : u.id ∈ (B2 ++ B1 ++ H).map Card.id := by
      simpa [List.map_append] using hmem
    obtain ⟨q, hq, hqid⟩ := List.mem_map.mp h2
    exact hu q hq hqid
  have h3 := nodup_insert_fst hmap hx
  simpa [NodupIds, List.map_append] using h3

theorem passFinishedCard_id (reviewTime : ℤ) (c : Card) :
    (passFinishedCard reviewTime c).id = c.id := by
  unfold passFinishedCard
  split <;> rfl

theorem passCard_preserves (s : ReviewState) (seed : ℚ) (h0 : 0 ≤ seed)
    (h1 : seed < 1) (inv : SessionInv s)
    (hqa : s.phase = .question ∨ s.phase = .answer) :
    SessionInv (passCardReduce s seed) := by
  rcases hcopt : s.currentCard with _ | pc
  · have hred : passCardReduce s seed = s := by
      unfold passCardReduce
      rw [hcopt]
    rw [hred]
    exact inv
  · have hpcmem : pc ∈ s.currentCard := Option.mem_def.mpr hcopt
    have hnfq2 : NodupIds s.failedCardsLevel2 :=
      nodupIds_sublist ((List.sublist_append_left _ _).trans
        (List.sublist_append_left _ _)) inv.poolNodup
    have hnfq21 : NodupIds (s.failedCardsLevel2 ++ s.failedCardsLevel1) :=
      nodupIds_sublist (List.sublist_append_left _ _) inv.poolNodup
    have hnfq1 : NodupIds s.failedCardsLevel1 :=
      nodupIds_sublist ((List.sublist_append_right _ _).trans
        (List.sublist_append_left _ _)) inv.poolNodup
    by_cases hfq2mem : pc ∈ s.failedCardsLevel2
    · have hpc1 : pc ∉ s.failedCardsLevel1 := fun hmem =>
        nodupIds_append_disjoint hnfq21 hfq2mem hmem rfl
      have hclean := base_clean inv hcopt (List.erase_sublist pc _)
        (List.Sublist.refl _) (nodupIds_not_mem_erase hnfq2 pc) hpc1
      have hnbase : NodupIds (s.failedCardsLevel2.erase pc ++
          s.failedCardsLevel1 ++ s.heap) :=
        nodupIds_sublist (List.Sublist.append_right
          (List.Sublist.append_right (List.erase_sublist pc _) _) _)
          inv.poolNodup
      have hred : passCardReduce s seed = updateNextCard
          { s with
            phase := .question,
            failedCardsLevel2 := s.failedCardsLevel2.erase pc,
            failedCardsLevel1 := s.failedCardsLevel1 ++
              [{ pc with progress :=
                { level := 0, reviewed := pc.progress.reviewed } }],
            history := s.history ++
              [{ pc with progress :=
                { level := 0, reviewed := pc.progress.reviewed } }],
            currentCard := some { pc with progress :=
              { level := 0, reviewed := pc.progress.reviewed } },
            savingProgress := true }
          seed .updateCurrentCard := by
        unfold passCardReduce
        rw [hcopt]
        dsimp only
        rw [if_pos hfq2mem]
      rw [hred]
      refine selInv_toSessionInv (intermediate_inv s _ pc _ _ _ seed h0 h1
        inv hcopt rfl rfl rfl rfl rfl rfl ?_ ?_ ?_)
      · intro q hq
        rcases List.mem_append.mp hq with hq2 | hq2
        · exact Or.inr ⟨List.mem_append.mpr
            (Or.inl ((List.erase_sublist pc _).subset hq2)),
            hclean q (List.mem_append.mpr (Or.inl
              (List.mem_append.mpr (Or.inl hq2))))⟩
        · rcases List.mem_append.mp hq2 with hq3 | hq3
          · exact Or.inr ⟨List.mem_append.mpr (Or.inr hq3),
              hclean q (List.mem_append.mpr (Or.inl
                (List.mem_append.mpr (Or.inr hq3))))⟩
          · rw [List.mem_singleton] at hq3
            exact Or.inl hq3
      · exact nodupIds_insert_mid hnbase hclean
      · intro hnone
        rcases inv.nonePool hqa hnone with hemp | ⟨c, hcmem2, hsing⟩
        · exfalso
          have hmem : pc ∈ poolOf s := List.mem_append.mpr
            (Or.inl (List.mem_append.mpr (Or.inl hfq2mem)))
          rw [hemp] at hmem
          simp at hmem
        · have h2 := Option.mem_def.mp hcmem2
          rw [hcopt] at h2
          have hcpc : c = pc := (Option.some.inj h2).symm
          rw [hcpc] at hsing
          rcases append3_eq_singleton hsing with
            ⟨ha2, ha1, hah⟩ | ⟨ha2, ha1, hah⟩ | ⟨ha2, ha1, hah⟩
          · right
            refine ⟨hah, { pc with progress :=
              { level := 0, reviewed := pc.progress.reviewed } }, ?_⟩
            rw [ha2, ha1]
            simp
          · exfalso
            rw [ha2] at hfq2mem
            simp at hfq2mem
          · exfalso
            rw [ha2] at hfq2mem
            simp at hfq2mem
    · by_cases hf1 : pc ∈ s.failedCardsLevel1
      · have hclean := base_clean inv hcopt (List.Sublist.refl _)
          (List.erase_sublist pc _) hfq2mem
          (nodupIds_not_mem_erase hnfq1 pc)
        have hnbase : NodupIds (s.failedCardsLevel2 ++
            s.failedCardsLevel1.erase pc ++ s.heap) :=
          nodupIds_sublist (List.Sublist.append_right
            (List.Sublist.append_left (List.erase_sublist pc _) _) _)
            inv.poolNodup
        have hred : passCardReduce s seed = updateNextCard
            { s with
              phase := .question,
              completed := s.completed + 1,
              failedCardsLevel1 := s.failedCardsLevel1.erase pc,
              history := s.history ++ [passFinishedCard s.reviewTime pc],
              currentCard := some (passFinishedCard s.reviewTime pc),
              savingProgress := true }
            seed .updateCurrentCard := by
          unfold passCardReduce
          rw [hcopt]
          dsimp only
          rw [if_neg hfq2mem, if_pos hf1]
        rw [hred]
        refine selInv_toSessionInv (intermediate_inv s _ pc _ _ _ seed h0
          h1 inv hcopt rfl rfl rfl rfl rfl
          (passFinishedCard_id s.reviewTime pc) ?_ ?_ ?_)
        · intro q hq
          rcases List.mem_append.mp hq with hq2 | hq2
          · exact Or.inr ⟨List.mem_append.mpr (Or.inl hq2),
              hclean q (List.mem_append.mpr (Or.inl
                (List.mem_append.mpr (Or.inl hq2))))⟩
          · exact Or.inr ⟨List.mem_append.mpr
              (Or.inr ((List.erase_sublist pc _).subset hq2)),
              hclean q (List.mem_append.mpr (Or.inl
                (List.mem_append.mpr (Or.inr hq2))))⟩
        · exact hnbase
        · intro hnone
          rcases inv.nonePool hqa hnone with hemp | ⟨c, hcmem2, hsing⟩
          · left
            rw [poolOf] at hemp
            simp only [List.append_eq_nil] at hemp
            rw [hemp.1.1, hemp.1.2, hemp.2]
            simp
          · have h2 := Option.mem_def.mp hcmem2
            rw [hcopt] at h2
            have hcpc : c = pc := (Option.some.inj h2).symm
            rw [hcpc] at hsing
            rcases append3_eq_singleton hsing with
              ⟨ha2, ha1, hah⟩ | ⟨ha2, ha1, hah⟩ | ⟨ha2, ha1, hah⟩
            · exfalso
              rw [ha2] at hfq2mem
              simp at hfq2mem
            · left
              rw [ha2, ha1, hah]
              simp
            · exfalso
              rw [ha1] at hf1
              simp at hf1
      · have hclean := base_clean inv hcopt (List.Sublist.refl _)
          (List.Sublist.refl _) hfq2mem hf1
        have hred : passCardReduce s seed = updateNextCard
            { s with
              phase := .question,
              completed := s.completed + 1,
              failedCardsLevel1 := s.failedCardsLevel1,
              history := s.history ++ [passFinishedCard s.reviewTime pc],
              currentCard := some (passFinishedCard s.reviewTime pc),
              savingProgress := true }
            seed .updateCurrentCard := by
          unfold passCardReduce
          rw [hcopt]
          dsimp only
          rw [if_neg hfq2mem, if_neg hf1]
        rw [hred]
        refine selInv_toSessionInv (intermediate_inv s _ pc _ _ _ seed h0
          h1 inv hcopt rfl rfl rfl rfl rfl
          (passFinishedCard_id s.reviewTime pc) ?_ ?_ ?_)
        · intro q hq
          exact Or.inr ⟨hq, hclean q (List.mem_append.mpr (Or.inl hq))⟩
        · exact inv.poolNodup
        · intro hnone
          rcases inv.nonePool hqa hnone with hemp | ⟨c, hcmem2, hsing⟩
          · exact Or.inl hemp
          · have h2 := Option.mem_def.mp hcmem2
            rw [hcopt] at h2
            have hcpc : c = pc := (Option.some.inj h2).symm
            rw [hcpc] at hsing
            rcases append3_eq_singleton hsing with
              ⟨ha2, ha1, hah⟩ | ⟨ha2, ha1, hah⟩ | ⟨ha2, ha1, hah⟩
            · exfalso
              rw [ha2] at hfq2mem
              simp at hfq2mem
            · exfalso
              rw [ha1] at hf1
              simp at hf1
            · exact absurd rfl (inv.curHeap pc hpcmem pc
                (by rw [hah]; exact List.mem_singleton_self pc))

theorem failCard_preserves (s : ReviewState) (seed : ℚ) (h0 : 0 ≤ seed)
    (h1 : seed < 1) (inv : SessionInv s)
    (hqa : s.phase = .question ∨ s.phase = .answer) :
    SessionInv (failCardReduce s seed) := by
  rcases hcopt : s.currentCard with _ | pc
  · have hred : failCardReduce s seed = s := by
      unfold failCardReduce
      rw [hcopt]
    rw [hred]
    exact inv
  · have hpcmem : pc ∈ s.currentCard := Option.mem_def.mpr hcopt
    have hnfq2 : NodupIds s.failedCardsLevel2 :=
      nodupIds_sublist ((List.sublist_append_left _ _).trans
        (List.sublist_append_left _ _)) inv.poolNodup
    have hnfq21 : NodupIds (s.failedCardsLevel2 ++ s.failedCardsLevel1) :=
      nodupIds_sublist (List.sublist_append_left _ _) inv.poolNodup
    have hnfq1 : NodupIds s.failedCardsLevel1 :=
      nodupIds_sublist ((List.sublist_append_right _ _).trans
        (List.sublist_append_left _ _)) inv.poolNodup
    by_cases hf1 : pc ∈ s.failedCardsLevel1
    · have hpc2 : pc ∉ s.failedCardsLevel2 := fun hmem =>
        nodupIds_append_disjoint hnfq21 hmem hf1 rfl
      have hclean := base_clean inv hcopt (List.Sublist.refl _)
        (List.erase_sublist pc _) hpc2 (nodupIds_not_mem_erase hnfq1 pc)
      have hnbase : NodupIds (s.failedCardsLevel2 ++
          s.failedCardsLevel1.erase pc ++ s.heap) :=
        nodupIds_sublist (List.Sublist.append_right
          (List.Sublist.append_left (List.erase_sublist pc _) _) _)
          inv.poolNodup
      have hred : failCardReduce s seed = updateNextCard
          { s with
            phase := .question,
            failedCardsLevel1 := s.failedCardsLevel1.erase pc,
            failedCardsLevel2 := s.failedCardsLevel2 ++
              [{ pc with progress :=
                { level := 0, reviewed := some s.reviewTime } }],
            history := s.history ++
              [{ pc with progress :=
                { level := 0, reviewed := some s.reviewTime } }],
            currentCard := some { pc with progress :=
              { level := 0, reviewed := some s.reviewTime } },
            savingProgress := true }
          seed .updateCurrentCard := by
        unfold failCardReduce
        rw [hcopt]
        dsimp only
        rw [if_pos hf1, if_neg (by rintro ⟨hna, -⟩; exact hna hf1)]
      rw [hred]
      refine selInv_toSessionInv (intermediate_inv s _ pc _ _ _ seed h0 h1
        inv hcopt rfl rfl rfl rfl rfl rfl ?_ ?_ ?_)
      · intro q hq
        rcases List.mem_append.mp hq with hq2 | hq2
        · rcases List.mem_append.mp hq2 with hq3 | hq3
          · exact Or.inr ⟨List.mem_append.mpr (Or.inl hq3),
              hclean q (List.mem_append.mpr (Or.inl
                (List.mem_append.mpr (Or.inl hq3))))⟩
          · rw [List.mem_singleton] at hq3
            exact Or.inl hq3
        · exact Or.inr ⟨List.mem_append.mpr
            (Or.inr ((List.erase_sublist pc _).subset hq2)),
            hclean q (List.mem_append.mpr (Or.inl
              (List.mem_append.mpr (Or.inr hq2))))⟩
      · exact nodupIds_insert_fst hnbase hclean
      · intro hnone
        rcases inv.nonePool hqa hnone with hemp | ⟨c, hcmem2, hsing⟩
        · rw [poolOf] at hemp
          simp only [List.append_eq_nil] at hemp
          right
          refine ⟨hemp.2, { pc with progress :=
            { level := 0, reviewed := some s.reviewTime } }, ?_⟩
          rw [hemp.1.1, hemp.1.2]
          simp
        · have h2 := Option.mem_def.mp hcmem2
          rw [hcopt] at h2
          have hcpc : c = pc := (Option.some.inj h2).symm
          rw [hcpc] at hsing
          rcases append3_eq_singleton hsing with
            ⟨ha2, ha1, hah⟩ | ⟨ha2, ha1, hah⟩ | ⟨ha2, ha1, hah⟩
          · exfalso
            rw [ha2] at hpc2
            simp at hpc2
          · right
            refine ⟨hah, { pc with progress :=
              { level := 0, reviewed := some s.reviewTime } }, ?_⟩
            rw [ha2, ha1]
            simp
          · exfalso
            rw [ha1] at hf1
            simp at hf1
    · by_cases hf2 : pc ∈ s.failedCardsLevel2
      · have hclean := base_clean inv hcopt (List.erase_sublist pc _)
          (List.Sublist.refl _) (nodupIds_not_mem_erase hnfq2 pc) hf1
        have hnbase : NodupIds (s.failedCardsLevel2.erase pc ++
            s.failedCardsLevel1 ++ s.heap) :=
          nodupIds_sublist (List.Sublist.append_right
            (List.Sublist.append_right (List.erase_sublist pc _) _) _)
            inv.poolNodup
        have hred : failCardReduce s seed = updateNextCard
            { s with
              phase := .question,
              failedCardsLevel1 := s.failedCardsLevel1,
              failedCardsLevel2 := s.failedCardsLevel2.erase pc ++
                [{ pc with progress :=
                  { level := 0, reviewed := some s.reviewTime } }],
              history := s.history ++
                [{ pc with progress :=
                  { level := 0, reviewed := some s.reviewTime } }],
              currentCard := some { pc with progress :=
                { level := 0, reviewed := some s.reviewTime } },
              savingProgress := true }
            seed .updateCurrentCard := by
          unfold failCardReduce
          rw [hcopt]
          dsimp only
          rw [if_neg hf1, if_pos ⟨hf1, hf2⟩]
        rw [hred]
        refine selInv_toSessionInv (intermediate_inv s _ pc _ _ _ seed h0
          h1 inv hcopt rfl rfl rfl rfl rfl rfl ?_ ?_ ?_)
        · intro q hq
          rcases List.mem_append.mp hq with hq2 | hq2
          · rcases List.mem_append.mp hq2 with hq3 | hq3
            · exact Or.inr ⟨List.mem_append.mpr
                (Or.inl ((List.erase_sublist pc _).subset hq3)),
                hclean q (List.mem_append.mpr (Or.inl
                  (List.mem_append.mpr (Or.inl hq3))))⟩
            · rw [List.mem_singleton] at hq3
              exact Or.inl hq3
          · exact Or.inr ⟨List.mem_append.mpr (Or.inr hq2),
              hclean q (List.mem_append.mpr (Or.inl
                (List.mem_append.mpr (Or.inr hq2))))⟩
        · exact nodupIds_insert_fst hnbase hclean
        · intro hnone
          rcases inv.nonePool hqa hnone with hemp | ⟨c, hcmem2, hsing⟩
          · rw [poolOf] at hemp
            simp only [List.append_eq_nil] at hemp
            right
            refine ⟨hemp.2, { pc with progress :=
              { level := 0, reviewed := some s.reviewTime } }, ?_⟩
            rw [hemp.1.1, hemp.1.2]
            simp
          · have h2 := Option.mem_def.mp hcmem2
            rw [hcopt] at h2
            have hcpc : c = pc := (Option.some.inj h2).symm
            rw [hcpc] at hsing
            rcases append3_eq_singleton hsing with
              ⟨ha2, ha1, hah⟩ | ⟨ha2, ha1, hah⟩ | ⟨ha2, ha1, hah⟩
            · right
              refine ⟨hah, { pc with progress :=
                { level := 0, reviewed := some s.reviewTime } }, ?_⟩
              rw [ha2, ha1]
              simp
            · exfalso
              rw [ha2] at hf2
              simp at hf2
            · exfalso
              rw [ha2] at hf2
              simp at hf2
      · have hclean := base_clean inv hcopt (List.Sublist.refl _)
          (List.Sublist.refl _) hf2 hf1
        have hred : failCardReduce s seed = updateNextCard
            { s with
              phase := .question,
              failedCardsLevel1 := s.failedCardsLevel1,
              failedCardsLevel2 := s.failedCardsLevel2 ++
                [{ pc with progress :=
                  { level := 0, reviewed := some s.reviewTime } }],
              history := s.history ++
                [{ pc with progress :=
                  { level := 0, reviewed := some s.reviewTime } }],
              currentCard := some { pc with progress :=
                { level := 0, reviewed := some s.reviewTime } },
              savingProgress := true }
            seed .updateCurrentCard := by
          unfold failCardReduce
          rw [hcopt]
          dsimp only
          rw [if_neg hf1, if_neg (by rintro ⟨-, hnb⟩; exact hf2 hnb)]
        rw [hred]
        refine selInv_toSessionInv (intermediate_inv s _ pc _ _ _ seed h0
          h1 inv hcopt rfl rfl rfl rfl rfl rfl ?_ ?_ ?_)
        · intro q hq
          rcases List.mem_append.mp hq with hq2 | hq2
          · rcases List.mem_append.mp hq2 with hq3 | hq3
            · exact Or.inr ⟨List.mem_append.mpr (Or.inl hq3),
                hclean q (List.mem_append.mpr (Or.inl
                  (List.mem_append.mpr (Or.inl hq3))))⟩
            · rw [List.mem_singleton] at hq3
              exact Or.inl hq3
          · exact Or.inr ⟨List.mem_append.mpr (Or.inr hq2),
              hclean q (List.mem_append.mpr (Or.inl
                (List.mem_append.mpr (Or.inr hq2))))⟩
        · exact nodupIds_insert_fst inv.poolNodup hclean
        · intro hnone
          rcases inv.nonePool hqa hnone with hemp | ⟨c, hcmem2, hsing⟩
          · rw [poolOf] at hemp
            simp only [List.append_eq_nil] at hemp
            right
            refine ⟨hemp.2, { pc with progress :=
              { level := 0, reviewed := some s.reviewTime } }, ?_⟩
            rw [hemp.1.1, hemp.1.2]
            simp
          · have h2 := Option.mem_def.mp hcmem2
            rw [hcopt] at h2
            have hcpc : c = pc := (Option.some.inj h2).symm
            rw [hcpc] at hsing
            rcases append3_eq_singleton hsing with
              ⟨ha2, ha1, hah⟩ | ⟨ha2, ha1, hah⟩ | ⟨ha2, ha1, hah⟩
            · exfalso
              rw [ha2] at hf2
              simp at hf2
            · exfalso
              rw [ha1] at hf1
              simp at hf1
            · exact absurd rfl (inv.curHeap pc hpcmem pc
                (by rw [hah]; exact List.mem_singleton_self pc))

theorem selInv_u2 (u1 : ReviewState) (cs : ℚ) (h0c : 0 ≤ cs)
    (h1c : cs < 1) (h : SelInv u1) :
    SelInv (if u1.nextCard ≠ none ∧ u1.currentCard = none then
      updateNextCard u1 cs .updateCurrentCard else u1) := by
  split
  · rename_i hcond
    exact updateNextCard_update_inv u1 cs h0c h1c h.histNodup h.nextHist
      h.poolHist h.poolNodup h.nextPool (fun hcne _ => absurd hcond.2 hcne)
  · exact h

theorem selInv_ite_phase (w : ReviewState) (P : Prop) [Decidable P]
    (p : ReviewPhase) (h : SelInv w) :
    SelInv (if P then { w with phase := p } else w) := by
  split
  · exact selInv_congr w _ rfl rfl rfl rfl rfl rfl h
  · exact h

theorem sessionInv_fixups (u : ReviewState) (ir : Bool) (h : SelInv u) :
    SessionInv (
      if ((if (u.phase = .complete ∨ u.phase = .loading) ∧
            u.currentCard ≠ none then { u with phase := .question }
          else u).phase = .complete ∧ ir) then
        { (if (u.phase = .complete ∨ u.phase = .loading) ∧
            u.currentCard ≠ none then { u with phase := .question }
          else u) with phase := .idle }
      else
        (if (u.phase = .complete ∨ u.phase = .loading) ∧
            u.currentCard ≠ none then { u with phase := .question }
          else u)) := by
  have h3 : SelInv (if (u.phase = .complete ∨ u.phase = .loading) ∧
      u.currentCard ≠ none then { u with phase := .question } else u) :=
    selInv_ite_phase u _ .question h
  exact selInv_toSessionInv (selInv_ite_phase _ _ .idle h3)

theorem reviewLoaded_preserves (s : ReviewState) (cards : List Card)
    (history failedCardsLevel1 failedCardsLevel2 : Option (List Card))
    (ns cs : ℚ) (ir : Bool)
    (h0n : 0 ≤ ns) (h1n : ns < 1) (h0c : 0 ≤ cs) (h1c : cs < 1)
    (hpre : LoadPre (loadedState s cards history failedCardsLevel1
      failedCardsLevel2)) :
    SessionInv (reviewLoadedReduce s cards history failedCardsLevel1
      failedCardsLevel2 ns cs ir) := by
  obtain ⟨hH, hCH, hPH, hPN, hCh, hCf⟩ := hpre
  have hu1 := updateNextCard_replace_inv (loadedState s cards history
    failedCardsLevel1 failedCardsLevel2) ns h0n h1n hH hCH hPH hPN hCh hCf
  unfold reviewLoadedReduce
  dsimp only
  exact sessionInv_fixups _ ir (selInv_u2 _ cs h0c h1c hu1)

theorem sessionInv_map (s t : ReviewState) (f : Card → Card)
    (hfid : ∀ c, (f c).id = c.id)
    (ht_heap : t.heap = s.heap.map f)
    (ht_f1 : t.failedCardsLevel1 = s.failedCardsLevel1.map f)
    (ht_f2 : t.failedCardsLevel2 = s.failedCardsLevel2.map f)
    (ht_hist : t.history = s.history.map f)
    (ht_cur : t.currentCard = s.currentCard.map f)
    (ht_next : t.nextCard = s.nextCard.map f)
    (ht_phase : t.phase = s.phase)
    (inv : SessionInv s) : SessionInv t := by
  have hpool : poolOf t = (poolOf s).map f := by
    rw [poolOf, poolOf, ht_heap, ht_f1, ht_f2, List.map_append,
      List.map_append]
  refine ⟨?_, ?_, ?_, ?_, ?_, ?_, ?_, ?_, ?_, ?_⟩
  · rw [ht_hist, NodupIds, List.map_map]
    have hcomp : s.history.map (Card.id ∘ f) = s.history.map Card.id :=
      List.map_congr_left (fun a _ => hfid a)
    rw [hcomp]
    exact inv.histNodup
  · rw [ht_cur, ht_hist]
    intro c hc h hh hq
    obtain ⟨c0, hc0, hc0e⟩ := Option.map_eq_some'.mp (Option.mem_def.mp hc)
    obtain ⟨h0, hh0, hh0e⟩ := List.mem_map.mp hh
    rw [← hh0e, ← hc0e, hfid, hfid] at hq
    exact inv.curHist c0 (Option.mem_def.mpr hc0) h0 hh0 hq
  · rw [ht_next, ht_hist]
    intro n hn h hh hq
    obtain ⟨n0, hn0, hn0e⟩ := Option.map_eq_some'.mp (Option.mem_def.mp hn)
    obtain ⟨h0, hh0, hh0e⟩ := List.mem_map.mp hh
    have hq0 : h0.id = n0.id := by
      rw [← hh0e, ← hn0e, hfid, hfid] at hq
      exact hq
    rw [← hh0e, ← hn0e,
      inv.nextHist n0 (Option.mem_def.mpr hn0) h0 hh0 hq0]
  · rw [hpool, ht_hist]
    intro p hp h hh hq
    obtain ⟨p0, hp0, hp0e⟩ := List.mem_map.mp hp
    obtain ⟨h0, hh0, hh0e⟩ := List.mem_map.mp hh
    have hq0 : h0.id = p0.id := by
      rw [← hh0e, ← hp0e, hfid, hfid] at hq
      exact hq
    rw [← hh0e, ← hp0e, inv.poolHist p0 hp0 h0 hh0 hq0]
  · rw [hpool, NodupIds, List.map_map]
    have hcomp : (poolOf s).map (Card.id ∘ f) = (poolOf s).map Card.id :=
      List.map_congr_left (fun a _ => hfid a)
    rw [hcomp]
    exact inv.poolNodup
  · rw [ht_cur, ht_heap]
    intro c hc p hp hq
    obtain ⟨c0, hc0, hc0e⟩ := Option.map_eq_some'.mp (Option.mem_def.mp hc)
    obtain ⟨p0, hp0, hp0e⟩ := List.mem_map.mp hp
    rw [← hp0e, ← hc0e, hfid, hfid] at hq
    exact inv.curHeap c0 (Option.mem_def.mpr hc0) p0 hp0 hq
  · rw [ht_cur, ht_f2, ht_f1, ← List.map_append]
    intro c hc p hp hq
    obtain ⟨c0, hc0, hc0e⟩ := Option.map_eq_some'.mp (Option.mem_def.mp hc)
    obtain ⟨p0, hp0, hp0e⟩ := List.mem_map.mp hp
    have hq0 : p0.id = c0.id := by
      rw [← hp0e, ← hc0e, hfid, hfid] at hq
      exact hq
    rw [← hp0e, ← hc0e,
      inv.curFq c0 (Option.mem_def.mpr hc0) p0 hp0 hq0]
  · rw [ht_cur, ht_next]
    intro c hc n hn hq
    obtain ⟨c0, hc0, hc0e⟩ := Option.map_eq_some'.mp (Option.mem_def.mp hc)
    obtain ⟨n0, hn0, hn0e⟩ := Option.map_eq_some'.mp (Option.mem_def.mp hn)
    rw [← hn0e, ← hc0e, hfid, hfid] at hq
    exact inv.curNext c0 (Option.mem_def.mpr hc0) n0
      (Option.mem_def.mpr hn0) hq
  · rw [ht_next, hpool]
    intro n hn p hp hq
    obtain ⟨n0, hn0, hn0e⟩ := Option.map_eq_some'.mp (Option.mem_def.mp hn)
    obtain ⟨p0, hp0, hp0e⟩ := List.mem_map.mp hp
    have hq0 : p0.id = n0.id := by
      rw [← hp0e, ← hn0e, hfid, hfid] at hq
      exact hq
    rw [← hp0e, ← hn0e,
      inv.nextPool n0 (Option.mem_def.mpr hn0) p0 hp0 hq0]
  · rw [ht_phase, ht_next, hpool, ht_cur]
    intro hph hnone
    have hs_none : s.nextCard = none := Option.map_eq_none'.mp hnone
    rcases inv.nonePool hph hs_none with hemp | ⟨c0, hc0, hsing⟩
    · left
      rw [hemp]
      rfl
    · right
      refine ⟨f c0, ?_, ?_⟩
      · rw [Option.mem_def] at hc0 ⊢
        rw [hc0]
        rfl
      · rw [hsing]
        rfl

theorem updateReviewCard_preserves (s : ReviewState) (card : Card)
    (inv : SessionInv s) : SessionInv (updateReviewCardReduce s card) := by
  have hid : ∀ c : Card,
      ((fun c => if c.id = card.id then card else c) c).id = c.id := by
    intro c
    dsimp only
    split
    · rename_i h
      rw [h]
    · rfl
  unfold updateReviewCardReduce
  dsimp only
  exact sessionInv_map s _ _ hid rfl rfl rfl rfl rfl rfl rfl inv

theorem deleteReviewCard_preserves (s : ReviewState) (cid : String)
    (seed : ℚ) (h0 : 0 ≤ seed) (h1 : seed < 1) (inv : SessionInv s) :
    SessionInv (deleteReviewCardReduce s cid seed) := by
  have hsH : List.Sublist (s.history.eraseP (fun c => c.id == cid))
      s.history := List.eraseP_sublist _
  have hpoolsub : List.Sublist
      (s.failedCardsLevel2.eraseP (fun c => c.id == cid) ++
        s.failedCardsLevel1.eraseP (fun c => c.id == cid) ++
        s.heap.eraseP (fun c => c.id == cid)) (poolOf s) :=
    List.Sublist.append (List.Sublist.append (List.eraseP_sublist _)
      (List.eraseP_sublist _)) (List.eraseP_sublist _)
  unfold deleteReviewCardReduce
  dsimp only
  split
  · apply selInv_toSessionInv
    apply updateNextCard_replace_inv _ seed h0 h1
    · exact nodupIds_sublist hsH inv.histNodup
    · intro c hc h hh hq
      exact inv.curHist c hc h ((List.eraseP_sublist _).subset hh) hq
    · intro p hp h hh hq
      exact inv.poolHist p (hpoolsub.subset hp) h
        ((List.eraseP_sublist _).subset hh) hq
    · exact nodupIds_sublist hpoolsub inv.poolNodup
    · intro c hc p hp hq
      exact inv.curHeap c hc p ((List.eraseP_sublist _).subset hp) hq
    · intro c hc p hp hq
      rcases List.mem_append.mp hp with hp2 | hp2
      · exact inv.curFq c hc p (List.mem_append.mpr
          (Or.inl ((List.eraseP_sublist _).subset hp2))) hq
      · exact inv.curFq c hc p (List.mem_append.mpr
          (Or.inr ((List.eraseP_sublist _).subset hp2))) hq
  · split
    · apply selInv_toSessionInv
      apply updateNextCard_update_inv _ seed h0 h1
      · exact nodupIds_sublist hsH inv.histNodup
      · intro n hn h hh hq
        exact inv.nextHist n hn h ((List.eraseP_sublist _).subset hh) hq
      · intro p hp h hh hq
        exact inv.poolHist p (hpoolsub.subset hp) h
          ((List.eraseP_sublist _).subset hh) hq
      · exact nodupIds_sublist hpoolsub inv.poolNodup
      · intro n hn p hp hq
        exact inv.nextPool n hn p (hpoolsub.subset hp) hq
      · intro hcne hnone
        exact absurd rfl hcne
    · refine ⟨?_, ?_, ?_, ?_, ?_, ?_, ?_, ?_, ?_, ?_⟩
      · exact nodupIds_sublist hsH inv.histNodup
      · intro c hc h hh hq
        exact inv.curHist c hc h ((List.eraseP_sublist _).subset hh) hq
      · intro n hn h hh hq
        exact inv.nextHist n hn h ((List.eraseP_sublist _).subset hh) hq
      · intro p hp h hh hq
        exact inv.poolHist p (hpoolsub.subset hp) h
          ((List.eraseP_sublist _).subset hh) hq
      · exact nodupIds_sublist hpoolsub inv.poolNodup
      · intro c hc p hp hq
        exact inv.curHeap c hc p ((List.eraseP_sublist _).subset hp) hq
      · intro c hc p hp hq
        rcases List.mem_append.mp hp with hp2 | hp2
        · exact inv.curFq c hc p (List.mem_append.mpr
            (Or.inl ((List.eraseP_sublist _).subset hp2))) hq
        · exact inv.curFq c hc p (List.mem_append.mpr
            (Or.inr ((List.eraseP_sublist _).subset hp2))) hq
      · exact inv.curNext
      · intro n hn p hp hq
        exact inv.nextPool n hn p (hpoolsub.subset hp) hq
      · intro hph hnone
        rcases inv.nonePool hph hnone with hemp | ⟨c, hc, hsing⟩
        · have h2 := hpoolsub
          rw [hemp] at h2
          exact Or.inl (List.sublist_nil.mp h2)
        · have h2 := hpoolsub
          rw [hsing] at h2
          rcases List.sublist_singleton.mp h2 with h3 | h3
          · exact Or.inl h3
          · exact Or.inr ⟨c, hc, h3⟩

theorem review_preserves_inv (s : ReviewState) (a : ReviewAction)
    (inv : SessionInv s) (wf : WFAction s a) : SessionInv (review s a) := by
  cases a with
  | newReview mc mn =>
    exact sessionInv_of_empty rfl rfl rfl rfl rfl rfl
  | setReviewLimit mc mn =>
    show SessionInv { s with
      phase := .loading, maxCards := mc, maxNewCards := mn }
    exact sessionInv_congr s _ rfl rfl rfl rfl rfl rfl
      (fun h => by rcases h with h | h <;> simp at h) inv
  | setReviewTime rt =>
    exact sessionInv_congr s _ rfl rfl rfl rfl rfl rfl (fun h => h) inv
  | reviewLoaded cards history failedCardsLevel1 failedCardsLevel2 ns cs
      ir =>
    obtain ⟨⟨h0n, h1n⟩, ⟨h0c, h1c⟩, hpre⟩ := wf
    exact reviewLoaded_preserves s cards history failedCardsLevel1
      failedCardsLevel2 ns cs ir h0n h1n h0c h1c hpre
  | passCard seed =>
    obtain ⟨h0, h1⟩ := wf
    show SessionInv (if s.phase ≠ .answer ∧ s.phase ≠ .question then s
      else passCardReduce s seed)
    split
    · exact inv
    · rename_i hguard
      rw [not_and_or, not_not, not_not] at hguard
      exact passCard_preserves s seed h0 h1 inv hguard.symm
  | showAnswer =>
    show SessionInv (if s.phase ≠ .question then s
      else { s with phase := .answer })
    split
    · exact inv
    · rename_i hguard
      rw [not_not] at hguard
      exact sessionInv_congr s _ rfl rfl rfl rfl rfl rfl
        (fun _ => Or.inl hguard) inv
  | failCard seed =>
    obtain ⟨h0, h1⟩ := wf
    show SessionInv (if s.phase ≠ .answer ∧ s.phase ≠ .question then s
      else failCardReduce s seed)
    split
    · exact inv
    · rename_i hguard
      rw [not_and_or, not_not, not_not] at hguard
      exact failCard_preserves s seed h0 h1 inv hguard.symm
  | finishUpdateProgress =>
    show SessionInv (if ¬s.savingProgress then s
      else { s with savingProgress := false })
    split
    · exact inv
    · exact sessionInv_congr s _ rfl rfl rfl rfl rfl rfl (fun h => h) inv
  | queryAvailableCards =>
    exact sessionInv_congr s _ rfl rfl rfl rfl rfl rfl (fun h => h) inv
  | updateAvailableCards ac =>
    show SessionInv (if s.phase ≠ .idle ∧ s.phase ≠ .complete then
      { s with
        availableCards := none, loadingAvailableCards := false }
      else
      { s with
        availableCards := some ac, loadingAvailableCards := false })
    split
    · exact sessionInv_congr s _ rfl rfl rfl rfl rfl rfl (fun h => h) inv
    · exact sessionInv_congr s _ rfl rfl rfl rfl rfl rfl (fun h => h) inv
  | updateReviewCard card =>
    exact updateReviewCard_preserves s card inv
  | deleteReviewCard cid seed =>
    obtain ⟨h0, h1⟩ := wf
    exact deleteReviewCard_preserves s cid seed h0 h1 inv
  | loadReview mc mn cp ncp =>
    show SessionInv { s with
      phase := .loading, maxCards := mc, maxNewCards := mn,
      completed := cp, newCardsInPlay := ncp, currentCard := none,
      nextCard := none }
    refine ⟨inv.histNodup, ?_, ?_, inv.poolHist, inv.poolNodup, ?_, ?_,
      ?_, ?_, ?_⟩
    · intro c hc
      simp at hc
    · intro n hn
      simp at hn
    · intro c hc
      simp at hc
    · intro c hc
      simp at hc
    · intro c hc
      simp at hc
    · intro n hn
      simp at hn
    · intro hph
      rcases hph with h | h <;> simp at h
  | cancelReview =>
    show SessionInv (if s.phase = .idle ∨ s.phase = .complete then s
      else _)
    split
    · exact inv
    · exact sessionInv_of_empty rfl rfl rfl rfl rfl rfl

theorem reachable_sessionInv {s : ReviewState} (h : Reachable s) :
    SessionInv s := by
  induction h with
  | init now => exact sessionInv_of_empty rfl rfl rfl rfl rfl rfl
  | step hr hwf ih => exact review_preserves_inv _ _ ih hwf

end Review

/-- C2 (evidence of the defect): executing the `PASS_CARD` branch on a
concrete question-phase state mutates the progress record that the *input*
state's current card references.  `const updatedCard = { ...passedCard }`
copies the card one level deep, so `updatedCard.progress` is the same
object as `passedCard.progress`, and the assignments
`updatedCard.progress.level = …` / `updatedCard.progress.reviewed = …`
write through it: the input state's current card goes from level 1,
reviewed at epoch 0, to level 2, reviewed at the session's review time, in
place.  The input state is therefore not left deeply unchanged. -/
theorem passCard_mutates_input_progress :
    MutModel.passCardProgressWrites MutModel.mutStateQ
        MutModel.mutStoreBefore =
      [{ level := 2, reviewed := some 86400000 }] ∧
      MutModel.passCardProgressWrites MutModel.mutStateQ
        MutModel.mutStoreBefore ≠ MutModel.mutStoreBefore := by
  have h : MutModel.passCardProgressWrites MutModel.mutStateQ
      MutModel.mutStoreBefore =
      [{ level := 2, reviewed := some 86400000 }] := by
    simp +decide only [MutModel.passCardProgressWrites, MutModel.mutStateQ,
      MutModel.mutStoreBefore]
    norm_num [Review.MS_PER_DAY, max_def]
  refine ⟨h, ?_⟩
  rw [h]
  intro hcontra
  simp [MutModel.mutStoreBefore] at hcontra

/-- C3: passing a current card that sits in neither failed queue computes
its new interval as max(previous level, 2 × days elapsed since its last
review, 0.5); a card with no prior `reviewed` timestamp, or with level 0,
gets level 0.5.  Either way `reviewed` is stamped with the session's review
time, and the updated card lands in the resulting state: at the end of the
history, unless it was immediately re-promoted to be the current card. -/
theorem passCard_interval (s : Review.ReviewState) (seed : ℚ)
    (c : Review.Card)
    (hphase : s.phase = .question ∨ s.phase = .answer)
    (hcur : s.currentCard = some c)
    (h1 : c ∉ s.failedCardsLevel1)
    (h2 : c ∉ s.failedCardsLevel2) :
    ∃ u, u.id = c.id ∧ u.progress.reviewed = some s.reviewTime ∧
      (∀ r, c.progress.reviewed = some r → c.progress.level ≠ 0 →
        u.progress.level = max c.progress.level
          (max (2 * (((s.reviewTime - r : ℤ) : ℚ) / Review.MS_PER_DAY))
            (1 / 2))) ∧
      ((c.progress.reviewed = none ∨ c.progress.level = 0) →
        u.progress.level = 1 / 2) ∧
      ((Review.review s (.passCard seed)).history.getLast? = some u ∨
        (Review.review s (.passCard seed)).currentCard = some u) := by
  have hguard : ¬(s.phase ≠ .answer ∧ s.phase ≠ .question) := by
    rcases hphase with h | h <;> simp [h]
  have hred : Review.review s (.passCard seed) =
      Review.passCardReduce s seed := by
    unfold Review.review
    dsimp only
    rw [if_neg hguard]
  rw [hred]
  unfold Review.passCardReduce
  rw [hcur]
  dsimp only
  rw [if_neg h2]
  refine ⟨Review.passFinishedCard s.reviewTime c, ?_, ?_, ?_, ?_, ?_⟩
  · unfold Review.passFinishedCard
    split <;> rfl
  · unfold Review.passFinishedCard
    split <;> rfl
  · intro r hr hl
    unfold Review.passFinishedCard
    rw [if_pos ⟨hl, by simp [hr]⟩]
    dsimp only
    rw [hr]
    simp only [Option.getD_some]
    rw [max_left_comm]
    congr 1
    congr 1
    push_cast
    ring
  · intro h
    have hcond : ¬(c.progress.level ≠ 0 ∧ c.progress.reviewed ≠ none) := by
      rcases h with h | h <;> simp [h]
    unfold Review.passFinishedCard
    rw [if_neg hcond]
  · exact Review.updateNextCard_last_in_history _ seed _ _ s.history rfl

/-- Witness for `passCard_interval`: passing the current card of a concrete
question-phase state (level 1, last reviewed one day before the session's
review time). -/
theorem passCard_interval_witness :
    ∃ u, u.id = "c" ∧ u.progress.reviewed = some 172800000 ∧
      (∀ r, (some (86400000 : ℤ) : Option ℤ) = some r → (1 : ℚ) ≠ 0 →
        u.progress.level = max (1 : ℚ)
          (max (2 * (((172800000 - r : ℤ) : ℚ) / Review.MS_PER_DAY))
            (1 / 2))) ∧
      (((some (86400000 : ℤ) : Option ℤ) = none ∨ (1 : ℚ) = 0) →
        u.progress.level = 1 / 2) ∧
      ((Review.review
          { Review.initialStateAt 0 with
            phase := .question, reviewTime := 172800000,
            currentCard := some
              { id := "c",
                progress := { level := 1, reviewed := some 86400000 } } }
          (.passCard 0)).history.getLast? = some u ∨
        (Review.review
          { Review.initialStateAt 0 with
            phase := .question, reviewTime := 172800000,
            currentCard := some
              { id := "c",
                progress := { level := 1, reviewed := some 86400000 } } }
          (.passCard 0)).currentCard = some u) :=
  passCard_interval
    { Review.initialStateAt 0 with
      phase := .question, reviewTime := 172800000,
      currentCard := some
        { id := "c", progress := { level := 1, reviewed := some 86400000 } } }
    0 { id := "c", progress := { level := 1, reviewed := some 86400000 } }
    (Or.inl rfl) rfl (by simp [Review.initialStateAt])
    (by simp [Review.initialStateAt])

/-- C4: card selection in `updateNextCard` (here in `ReplaceNextCard`
mode, where the pool and the current card are exactly those of the state)
draws from the concatenation failedCardsLevel2 ++ failedCardsLevel1 ++
heap: for every seed in [0, 1) the chosen index is
floor(seed × poolSize), which is always in range; if the chosen card is the
current card the index shifts by +1 — or by −1 when already at the last
index — and when the pool is exactly one card equal to the current card the
next card becomes null. -/
theorem updateNextCard_selection (s : Review.ReviewState) (seed : ℚ)
    (h0 : 0 ≤ seed) (h1 : seed < 1) (hne : Review.poolOf s ≠ []) :
    ⌊seed * ((Review.poolOf s).length : ℚ)⌋.toNat <
        (Review.poolOf s).length ∧
    ∀ i, i = ⌊seed * ((Review.poolOf s).length : ℚ)⌋.toNat →
      ((Review.poolOf s)[i]? ≠ s.currentCard →
        (Review.updateNextCard s seed .replaceNextCard).nextCard =
          (Review.poolOf s)[i]?) ∧
      (∀ c, s.currentCard = some c → (Review.poolOf s)[i]? = some c →
        ((Review.poolOf s).length = 1 →
          (Review.updateNextCard s seed .replaceNextCard).nextCard =
            none) ∧
        (1 < (Review.poolOf s).length →
          (Review.updateNextCard s seed .replaceNextCard).nextCard =
            (Review.poolOf s)[if i < (Review.poolOf s).length - 1 then
              i + 1 else i - 1]?)) := by
  have hpool : Review.poolOf s =
      s.failedCardsLevel2 ++ s.failedCardsLevel1 ++ s.heap := rfl
  have hpos : 0 < (Review.poolOf s).length := List.length_pos.mpr hne
  obtain ⟨hlt, hmain, hcurCase⟩ :=
    Review.findNextCard_spec s.failedCardsLevel2 s.failedCardsLevel1 s.heap
      s.currentCard seed (Review.poolOf s).length
      ⌊seed * ((Review.poolOf s).length : ℚ)⌋.toNat h0 h1 (by rw [hpool])
      hpos rfl
  have hred : (Review.updateNextCard s seed .replaceNextCard).nextCard =
      Review.findNextCard s.failedCardsLevel2 s.failedCardsLevel1 s.heap
        s.currentCard seed := by
    have hca : ¬(s.failedCardsLevel2.length + s.failedCardsLevel1.length +
        s.heap.length = 0) := by
      rw [← Review.poolOf_length]
      omega
    unfold Review.updateNextCard
    dsimp only
    rw [if_neg hca]
    refine (Review.assembleNext_not_promoted ?_).2
    rintro ⟨hA, hB, -⟩
    exact hB hA
  refine ⟨hlt, ?_⟩
  rintro i rfl
  constructor
  · intro hne2
    rw [hred]
    exact hmain (by rw [← hpool]; exact hne2)
  · intro c hc hg
    obtain ⟨hone, hmany⟩ := hcurCase c hc (by rw [← hpool]; exact hg)
    exact ⟨fun h => by rw [hred]; exact hone h,
      fun h => by rw [hred]; exact hmany h⟩

/-- Witness for `updateNextCard_selection`: a concrete two-card pool with
no current card and seed 0. -/
theorem updateNextCard_selection_witness :
    ⌊(0 : ℚ) * ((Review.poolOf
        { Review.initialStateAt 0 with
          heap := [Review.cardA, Review.cardB] }).length : ℚ)⌋.toNat <
      (Review.poolOf
        { Review.initialStateAt 0 with
          heap := [Review.cardA, Review.cardB] }).length :=
  (updateNextCard_selection
    { Review.initialStateAt 0 with heap := [Review.cardA, Review.cardB] }
    0 (by norm_num) (by norm_num)
    (by simp [Review.poolOf, Review.initialStateAt])).1

/-- C10: the `FAIL_CARD` branch, in addition to forcing the failed card's
level to 0, stamps its `progress.reviewed` with the session's review time
(so a later pass measures its interval from the failure); the updated card
is the most recently pushed member of failed queue two. -/
theorem failCard_stamps_review_time (s : Review.ReviewState) (seed : ℚ)
    (c : Review.Card)
    (hphase : s.phase = .question ∨ s.phase = .answer)
    (hcur : s.currentCard = some c) :
    ∃ u, (Review.review s (.failCard seed)).failedCardsLevel2.getLast? =
        some u ∧
      u.id = c.id ∧ u.progress.level = 0 ∧
      u.progress.reviewed = some s.reviewTime := by
  have hguard : ¬(s.phase ≠ .answer ∧ s.phase ≠ .question) := by
    rcases hphase with h | h <;> simp [h]
  have hred : Review.review s (.failCard seed) =
      Review.failCardReduce s seed := by
    unfold Review.review
    dsimp only
    rw [if_neg hguard]
  rw [hred]
  unfold Review.failCardReduce
  rw [hcur]
  refine ⟨{ c with progress :=
    { level := 0, reviewed := some s.reviewTime } }, ?_, rfl, rfl, rfl⟩
  rw [(Review.updateNextCard_fq _ _ _).1]
  simp

/-- Witness for `failCard_stamps_review_time`: failing the current card of
a concrete question-phase state. -/
theorem failCard_stamps_review_time_witness :
    ∃ u, (Review.review
        { Review.initialStateAt 0 with
          phase := .question, reviewTime := 7, heap := [Review.cardB],
          currentCard := some Review.cardA,
          nextCard := some Review.cardB }
        (.failCard 0)).failedCardsLevel2.getLast? = some u ∧
      u.id = Review.cardA.id ∧ u.progress.level = 0 ∧
      u.progress.reviewed = some 7 :=
  failCard_stamps_review_time
    { Review.initialStateAt 0 with
      phase := .question, reviewTime := 7, heap := [Review.cardB],
      currentCard := some Review.cardA, nextCard := some Review.cardB }
    0 Review.cardA (Or.inl rfl) rfl

/-- C9 (counterexample to the literal claim): the claim quantifies over
all reducer actions, but a `REVIEW_LOADED` action whose payload carries a
duplicated history entry for a card that is also among the loaded cards
puts the freshly selected current card straight into the history: from the
initial state, loading cards [a, b] with history [a, a] (seeds 0) yields
`currentCard = a` while `a` is still in the history — the single
`history.splice` in `updateNextCard` removes only one of the duplicates. -/
theorem reviewLoaded_breaks_history_invariant :
    (Review.review (Review.initialStateAt 0)
        (.reviewLoaded [Review.cardA, Review.cardB]
          (some [Review.cardA, Review.cardA]) none none 0 0
          false)).currentCard = some Review.cardA ∧
      Review.cardA ∈ (Review.review (Review.initialStateAt 0)
        (.reviewLoaded [Review.cardA, Review.cardB]
          (some [Review.cardA, Review.cardA]) none none 0 0
          false)).history := by
  constructor <;>
    simp +decide [Review.review, Review.reviewLoadedReduce,
      Review.loadedState, Review.updateNextCard, Review.updateCurrentStage,
      Review.assembleNext, Review.findNextCard, Review.getCardAtIndex,
      Review.initialStateAt, Review.cardA, Review.cardB, List.erase_cons]

/-- C9 (amended): in every review state reachable from the initial state
by well-formed dispatches — random seeds drawn from [0, 1) and
`REVIEW_LOADED` payloads consistent with the session (`WFAction`) — a
non-null `currentCard` never appears in the history array.  Proved by
strengthening to the inductive invariant `SessionInv` and showing every
reducer action preserves it. -/
theorem currentCard_not_in_history (s : Review.ReviewState)
    (hs : Review.Reachable s) (c : Review.Card)
    (hc : s.currentCard = some c) : c ∉ s.history := fun hmem =>
  (Review.reachable_sessionInv hs).curHist c (Option.mem_def.mpr hc) c
    hmem rfl

/-- Witness for `currentCard_not_in_history`: after one well-formed
`REVIEW_LOADED` of cards [a, b] into the initial state the current card is
`a` and `a` is indeed not in the history. -/
theorem currentCard_not_in_history_witness :
    Review.cardA ∉ (Review.review (Review.initialStateAt 0)
      (.reviewLoaded [Review.cardA, Review.cardB] none none none 0 0
        false)).history :=
  currentCard_not_in_history _
    (Review.Reachable.step (Review.Reachable.init 0)
      (by
        refine ⟨⟨le_refl 0, by norm_num⟩, ⟨le_refl 0, by norm_num⟩, ?_⟩
        refine ⟨?_, ?_, ?_, ?_, ?_, ?_⟩ <;>
          simp +decide [Review.LoadPre, Review.loadedState,
            Review.initialStateAt, Review.NodupIds, Review.poolOf,
            Review.cardA, Review.cardB]))
    Review.cardA
    (by
      simp +decide [Review.review, Review.reviewLoadedReduce,
        Review.loadedState, Review.updateNextCard,
        Review.updateCurrentStage, Review.assembleNext,
        Review.findNextCard, Review.getCardAtIndex,
        Review.initialStateAt, Review.cardA, Review.cardB,
        List.erase_cons])

end Tensai
